import Mathlib

/-!
Verification of the squid repository's core subsystems:

* the handler selection-merge engine of
  `substrate-processor/src/batch/handlers.ts` (selection trees over
  JavaScript values, handler registry merging), and
* the batch/stream sinks of `substrate-archive/src/sink.ts`
  (column-oriented bulk-insert buffers, the transactional batch writer,
  and the backpressure-aware streaming writer).

JavaScript records are embedded as insertion-ordered association lists,
machine integers as `Int`, fallible database calls as an oracle
`Query → Option String` (`none` = success), and the asynchronous
streaming writer as an explicit state machine.
-/

namespace Squid

/-! ## JavaScript selection values (`handlers.ts`)

A field of a `ContextRequest` is an arbitrary JavaScript value; the code
distinguishes `true`, falsy non-nullish values (`false`), nullish values
(`null`/`undefined`, collapsed to one constructor), and plain objects.
Objects are insertion-ordered string-keyed records, embedded as
association lists. -/

inductive JsVal where
  | tru : JsVal
  | fals : JsVal
  | undef : JsVal
  | obj : List (String × JsVal) → JsVal

abbrev JsObj := List (String × JsVal)

/-- Property access `m[k]` on a JavaScript object: the value stored under
the first (and in real JavaScript only) binding of key `k`. -/
def alookup {T : Type} : List (String × T) → String → Option T
  | [], _ => none
  | (k0, v) :: rest, k => if k0 = k then some v else alookup rest k

/-- Property assignment `m[k] = v` on a JavaScript object: overwrites the
binding in place when the key exists (keeping its position), otherwise
appends a new binding. -/
def setKey {T : Type} : List (String × T) → String → T → List (String × T)
  | [], k, v => [(k, v)]
  | (k0, v0) :: rest, k, v =>
      if k0 = k then (k, v) :: rest else (k0, v0) :: setKey rest k v

/-- The JavaScript test `v === undefined || v === null` on a stored value. -/
def isUndef : JsVal → Bool
  | JsVal.undef => true
  | _ => false

/-- The JavaScript test `a[k] == null`: the key is missing or holds a
nullish value. -/
def isNullishAt (a : JsObj) (k : String) : Bool :=
  match alookup a k with
  | none => true
  | some v => isUndef v

/-- Second loop of `mergeMaps` from `handlers.ts`, specialised to `JsVal`
values: for each key of `b`, if `a[key] == null` then
`result[key] = b[key]`. -/
def jloop2 (a : JsObj) (r : JsObj) : JsObj → JsObj
  | [] => r
  | (k, vb) :: rest =>
      jloop2 a (if isNullishAt a k then setKey r k vb else r) rest

mutual

/-- The inner `merge` function of `mergeContextRequests`:
`if (fa === true || fb === true) return true; if (!fa) return fb;
if (!fb) return fa; return mergeMaps(fa, fb, merge)`. -/
def merge : JsVal → JsVal → JsVal
  | JsVal.tru, _ => JsVal.tru
  | JsVal.undef, JsVal.tru => JsVal.tru
  | JsVal.fals, JsVal.tru => JsVal.tru
  | JsVal.obj _, JsVal.tru => JsVal.tru
  | JsVal.undef, fb => fb
  | JsVal.fals, fb => fb
  | JsVal.obj la, JsVal.undef => JsVal.obj la
  | JsVal.obj la, JsVal.fals => JsVal.obj la
  | JsVal.obj la, JsVal.obj lb => JsVal.obj (jloop2 la (jloop1 lb [] la) lb)
termination_by fa _ => sizeOf fa

/-- The value `mergeMaps` stores for a key `k` of `a` during its first
loop: `a[k]` when `b[k] == null` and `merge(a[k], b[k])` otherwise. -/
def jitem (b : JsObj) (k : String) (va : JsVal) : JsVal :=
  match alookup b k with
  | none => va
  | some JsVal.undef => va
  | some vb => merge va vb
termination_by sizeOf va + 1

/-- First loop of `mergeMaps` from `handlers.ts`, specialised to the
recursive field merge. -/
def jloop1 (b : JsObj) (r : JsObj) : JsObj → JsObj
  | [] => r
  | (k, va) :: rest => jloop1 b (setKey r k (jitem b k va)) rest
termination_by l => sizeOf l

end

/-- `mergeMaps(a, b, merge)` applied to two present selection trees. -/
def jmergeMaps (a b : JsObj) : JsObj :=
  jloop2 a (jloop1 b [] a) b

/-- `mergeContextRequests(a?, b?)` from `handlers.ts`: if either argument
is nullish the result is `undefined`, otherwise the key-wise field merge. -/
def mergeContextRequests : Option JsObj → Option JsObj → Option JsObj
  | none, _ => none
  | _, none => none
  | some a, some b => some (jmergeMaps a b)

/-! ## Handler registry merge (`handlers.ts`)

`mergeMaps` is generic in the item type `T`; at the instantiations used by
`mergeDataHandlers` the stored values are object literals, so `x == null`
on a looked-up value holds exactly when the key is absent. -/

/-- The value the generic `mergeMaps` stores for a key `k` of `a` during
its first loop. -/
def mmItem {T : Type} (b : List (String × T)) (mergeItems : T → T → T)
    (k : String) (va : T) : T :=
  match alookup b k with
  | none => va
  | some vb => mergeItems va vb

/-- First loop of the generic `mergeMaps`: for each key of `a`, take
`a[key]` when `b[key] == null` and `mergeItems(a[key], b[key])` otherwise. -/
def mmLoop1 {T : Type} (b : List (String × T)) (mergeItems : T → T → T)
    (r : List (String × T)) : List (String × T) → List (String × T)
  | [] => r
  | (k, va) :: rest =>
      mmLoop1 b mergeItems (setKey r k (mmItem b mergeItems k va)) rest

/-- Second loop of the generic `mergeMaps`: for each key of `b`, if
`a[key] == null` then `result[key] = b[key]`. -/
def mmLoop2 {T : Type} (a : List (String × T))
    (r : List (String × T)) : List (String × T) → List (String × T)
  | [] => r
  | (k, vb) :: rest =>
      mmLoop2 a (if (alookup a k).isSome then r else setKey r k vb) rest

/-- `mergeMaps(a, b, mergeItems)` from `handlers.ts`. -/
def mergeMaps {T : Type} (a b : List (String × T)) (mergeItems : T → T → T) :
    List (String × T) :=
  mmLoop2 a (mmLoop1 b mergeItems [] a) b

/-- `HandlerList<H>` from `handlers.ts`: an optional shared selection and
an ordered sequence of handlers. -/
structure HandlerList (H : Type) where
  data : Option JsObj
  handlers : List H

/-- One entry of the `evmLogs` category: optional topic filter, optional
selection, and a handler (entries are concatenated, never merged). -/
structure EvmLogEntry (F LH : Type) where
  filter : Option (List F)
  data : Option JsObj
  handler : LH

/-- `DataHandlers` from `handlers.ts`, polymorphic in the handler types
(block, event, call, EVM topic, EVM log, contract-emitted). -/
structure DataHandlers (BH EH CH F LH XH : Type) where
  pre : List BH
  post : List BH
  events : List (String × HandlerList EH)
  calls : List (String × HandlerList CH)
  evmLogs : List (String × List (EvmLogEntry F LH))
  contractsContractEmitted : List (String × HandlerList XH)

/-- `mergeHandlerLists(a, b)` from `handlers.ts`. -/
def mergeHandlerLists {H : Type} (a b : HandlerList H) : HandlerList H :=
  { data := mergeContextRequests a.data b.data
    handlers := a.handlers ++ b.handlers }

/-- `mergeDataHandlers(a, b)` from `handlers.ts`. -/
def mergeDataHandlers {BH EH CH F LH XH : Type}
    (a b : DataHandlers BH EH CH F LH XH) : DataHandlers BH EH CH F LH XH :=
  { pre := a.pre ++ b.pre
    post := a.post ++ b.post
    events := mergeMaps a.events b.events mergeHandlerLists
    calls := mergeMaps a.calls b.calls mergeHandlerLists
    evmLogs := mergeMaps a.evmLogs b.evmLogs (fun ha hb => ha ++ hb)
    contractsContractEmitted :=
      mergeMaps a.contractsContractEmitted b.contractsContractEmitted mergeHandlerLists }

/-! ## Entity model (`substrate-archive/src/model`, as described by the spec)

The entity record types consumed by the sink.  `timestamptz` values are
embedded as integers, JSON payloads as their serialized text. -/

abbrev Json := String

structure Metadata where
  spec_version : Int
  block_height : Int
  block_hash : String
  hex : String
deriving DecidableEq

structure Block where
  id : String
  height : Int
  hash : String
  parent_hash : String
  timestamp : Int
  spec_version : Int
deriving DecidableEq

structure Extrinsic where
  id : String
  block_id : String
  name : String
  index_in_block : Int
  signature : Option Json
  success : Bool
  hash : String
  call_id : String
deriving DecidableEq

structure Call where
  id : String
  index : Int
  block_id : String
  extrinsic_id : String
  name : String
  parent_id : Option String
  success : Bool
  args : Json
deriving DecidableEq

structure Event where
  id : String
  block_id : String
  phase : String
  index_in_block : Int
  name : String
  extrinsic_id : Option String
  call_id : Option String
  args : Json
deriving DecidableEq

structure Warning where
  block_id : String
  message : String
deriving DecidableEq

/-- `BlockData` from the model: one decoded block handed to a sink. -/
structure BlockData where
  header : Block
  metadata : Option Metadata
  extrinsics : List Extrinsic
  calls : List Call
  events : List Event
  warnings : Option (List Warning)
  last : Bool
deriving DecidableEq

/-! ## Column-oriented bulk-insert buffers (`sink.ts`, class `Insert`) -/

/-- A value bound to a statement parameter (`unknown` in the source). -/
inductive SqlValue where
  | s : String → SqlValue
  | i : Int → SqlValue
  | b : Bool → SqlValue
  | js : Json → SqlValue
  | null : SqlValue
deriving DecidableEq

/-- Modelled from the spec: the JSON text of a value, as produced by the
out-of-src `util/json` serializers (structured-value serialization). -/
def jsonText : SqlValue → String
  | SqlValue.s v => "\x22" ++ v ++ "\x22"
  | SqlValue.i v => toString v
  | SqlValue.b v => if v then "true" else "false"
  | SqlValue.js v => v
  | SqlValue.null => "null"

/-- Modelled from the spec: `toJsonString` from the out-of-src `util/json`
module; serializes a value to its JSON text. -/
def toJsonStringV (v : SqlValue) : SqlValue :=
  SqlValue.js (jsonText v)

/-- Modelled from the spec: `toJSON` from the out-of-src `util/json`
module maps a value to its JSON-compatible representation; on the text
values it is applied to here this is the identity. -/
def toJSONv (v : SqlValue) : SqlValue :=
  v

/-- One entry of the `TableColumns` mapping: the column name, the field
access `row[name]`, the optional per-column transform `map`, and the
optional SQL array element type `cast`. -/
structure ColumnDef (E V : Type) where
  name : String
  get : E → V
  map : Option (V → V)
  cast : Option String

/-- The value stored for one column by `Insert.add`:
`def.map ? def.map(row[name]) : row[name]`. -/
def applyTransform {E V : Type} (c : ColumnDef E V) (row : E) : V :=
  match c.map with
  | some f => f (c.get row)
  | none => c.get row

/-- A database query: transaction control (`BEGIN`/`COMMIT`/`ROLLBACK`)
or a bulk insert with its statement text and one bound array per column.
The target table is carried alongside the statement text. -/
inductive Query where
  | beginTx : Query
  | commitTx : Query
  | rollbackTx : Query
  | insert : String → String → List (List SqlValue) → Query
deriving DecidableEq

/-- The database connection as an oracle: for each issued query, `none`
means it succeeds and `some e` means it fails with error `e`. -/
def Db : Type := Query → Option String

/-- State of one `Insert<E>` instance: target table, declared column
mapping, the statement text built by the constructor, and the accumulated
per-column value arrays. -/
structure Insert (E V : Type) where
  table : String
  mapping : List (ColumnDef E V)
  sql : String
  columns : List (String × List V)

/-- The statement text built by the `Insert` constructor:
`INSERT INTO t (cols) SELECT * FROM unnest($1::c1[], ...) AS i(cols)`. -/
def buildSql {E V : Type} (table : String) (mapping : List (ColumnDef E V)) : String :=
  let names := mapping.map ColumnDef.name
  let args := mapping.enum.map (fun p =>
    let param := "$" ++ toString (p.1 + 1)
    match p.2.cast with
    | some c => param ++ "::" ++ c ++ "[]"
    | none => param)
  "INSERT INTO " ++ table ++ " (" ++ String.intercalate ", " names ++
    ") SELECT * FROM unnest(" ++ String.intercalate ", " args ++
    ") AS i(" ++ String.intercalate ", " names ++ ")"

/-- `new Insert(table, mapping)`: builds the statement text and one empty
array per declared column (`makeColumns`). -/
def Insert.make {E V : Type} (table : String) (mapping : List (ColumnDef E V)) :
    Insert E V :=
  { table := table
    mapping := mapping
    sql := buildSql table mapping
    columns := mapping.map (fun c => (c.name, [])) }

/-- `this.columns[name].push(v)`: appends `v` to the array stored under
`name` (every column with that name; under the class invariant the name
occurs exactly once). -/
def pushKey {V : Type} (cols : List (String × List V)) (k : String) (v : V) :
    List (String × List V) :=
  cols.map (fun p => (p.1, if p.1 = k then p.2 ++ [v] else p.2))

/-- `Insert.add(row)`: for each declared column, push the (optionally
transformed) row field onto that column's array. -/
def Insert.add {E V : Type} (ins : Insert E V) (row : E) : Insert E V :=
  { ins with
    columns := ins.mapping.foldl
      (fun cols c => pushKey cols c.name (applyTransform c row)) ins.columns }

/-- `Insert.addMany(rows)`: `add` each row in order. -/
def Insert.addMany {E V : Type} (ins : Insert E V) (rows : List E) : Insert E V :=
  rows.foldl (fun i row => i.add row) ins

/-- `Insert.size`: the length of the first declared column's array, `0`
when there are no columns. -/
def Insert.size {E V : Type} (ins : Insert E V) : Nat :=
  match ins.columns with
  | [] => 0
  | (_, col) :: _ => col.length

/-- `Insert.clear()`: rebuild the empty per-column arrays (`makeColumns`). -/
def Insert.clear {E V : Type} (ins : Insert E V) : Insert E V :=
  { ins with columns := ins.mapping.map (fun c => (c.name, [])) }

/-- `Insert.query(db)`: skip entirely when `size == 0`, otherwise issue
the bulk insert bound to `Object.values(this.columns)`.  Returns the
queries issued and the failure, if any. -/
def Insert.queryStep {E : Type} (ins : Insert E SqlValue) (db : Db) :
    List Query × Option String :=
  if ins.size = 0 then ([], none)
  else
    let q := Query.insert ins.table ins.sql (ins.columns.map Prod.snd)
    ([q], db q)

/-! ## The transactional batch writer (`sink.ts`, class `PostgresSink`)

The optional `Speed`/`Progress` metrics collaborators are side-effecting
observers with no influence on buffers, queries, or errors, and are not
modelled.  Effects on the database are captured as the list of issued
queries together with the propagated error, if any. -/

/-- The helper turning an `Option String` field into a bound value. -/
def optText : Option String → SqlValue
  | some v => SqlValue.s v
  | none => SqlValue.null

/-- The helper turning an optional JSON payload into a bound value. -/
def optJson : Option Json → SqlValue
  | some v => SqlValue.js v
  | none => SqlValue.null

/-- Columns of the `metadata` insert (`sink.ts` lines 22–27). -/
def metadataColumns : List (ColumnDef Metadata SqlValue) :=
  [ { name := "spec_version", get := fun m => SqlValue.i m.spec_version,
      map := none, cast := some "int" },
    { name := "block_height", get := fun m => SqlValue.i m.block_height,
      map := none, cast := some "int" },
    { name := "block_hash", get := fun m => SqlValue.s m.block_hash,
      map := none, cast := some "text" },
    { name := "hex", get := fun m => SqlValue.s m.hex,
      map := none, cast := some "text" } ]

/-- Columns of the `block` insert (`sink.ts` lines 29–36). -/
def headerColumns : List (ColumnDef Block SqlValue) :=
  [ { name := "id", get := fun b => SqlValue.s b.id,
      map := none, cast := some "text" },
    { name := "height", get := fun b => SqlValue.i b.height,
      map := none, cast := some "numeric" },
    { name := "hash", get := fun b => SqlValue.s b.hash,
      map := none, cast := some "text" },
    { name := "parent_hash", get := fun b => SqlValue.s b.parent_hash,
      map := none, cast := some "text" },
    { name := "timestamp", get := fun b => SqlValue.i b.timestamp,
      map := none, cast := some "timestamptz" },
    { name := "spec_version", get := fun b => SqlValue.i b.spec_version,
      map := none, cast := some "int" } ]

/-- Columns of the `extrinsic` insert (`sink.ts` lines 38–47). -/
def extrinsicColumns : List (ColumnDef Extrinsic SqlValue) :=
  [ { name := "id", get := fun e => SqlValue.s e.id,
      map := none, cast := some "text" },
    { name := "block_id", get := fun e => SqlValue.s e.block_id,
      map := none, cast := some "text" },
    { name := "name", get := fun e => SqlValue.s e.name,
      map := none, cast := some "text" },
    { name := "index_in_block", get := fun e => SqlValue.i e.index_in_block,
      map := none, cast := some "integer" },
    { name := "signature", get := fun e => optJson e.signature,
      map := some toJsonStringV, cast := some "jsonb" },
    { name := "success", get := fun e => SqlValue.b e.success,
      map := none, cast := some "bool" },
    { name := "hash", get := fun e => SqlValue.s e.hash,
      map := some toJSONv, cast := some "text" },
    { name := "call_id", get := fun e => SqlValue.s e.call_id,
      map := none, cast := some "text" } ]

/-- Columns of the `call` insert (`sink.ts` lines 49–58). -/
def callColumns : List (ColumnDef Call SqlValue) :=
  [ { name := "id", get := fun c => SqlValue.s c.id,
      map := none, cast := some "text" },
    { name := "index", get := fun c => SqlValue.i c.index,
      map := none, cast := some "integer" },
    { name := "block_id", get := fun c => SqlValue.s c.block_id,
      map := none, cast := some "text" },
    { name := "extrinsic_id", get := fun c => SqlValue.s c.extrinsic_id,
      map := none, cast := some "text" },
    { name := "name", get := fun c => SqlValue.s c.name,
      map := none, cast := some "text" },
    { name := "parent_id", get := fun c => optText c.parent_id,
      map := none, cast := some "text" },
    { name := "success", get := fun c => SqlValue.b c.success,
      map := none, cast := some "bool" },
    { name := "args", get := fun c => SqlValue.js c.args,
      map := some toJsonStringV, cast := some "jsonb" } ]

/-- Columns of the `event` insert (`sink.ts` lines 60–69). -/
def eventColumns : List (ColumnDef Event SqlValue) :=
  [ { name := "id", get := fun e => SqlValue.s e.id,
      map := none, cast := some "text" },
    { name := "block_id", get := fun e => SqlValue.s e.block_id,
      map := none, cast := some "text" },
    { name := "phase", get := fun e => SqlValue.s e.phase,
      map := none, cast := some "text" },
    { name := "index_in_block", get := fun e => SqlValue.i e.index_in_block,
      map := none, cast := some "integer" },
    { name := "name", get := fun e => SqlValue.s e.name,
      map := none, cast := some "text" },
    { name := "extrinsic_id", get := fun e => optText e.extrinsic_id,
      map := none, cast := some "text" },
    { name := "call_id", get := fun e => optText e.call_id,
      map := none, cast := some "text" },
    { name := "args", get := fun e => SqlValue.js e.args,
      map := some toJsonStringV, cast := some "jsonb" } ]

/-- Columns of the `warning` insert (`sink.ts` lines 71–74). -/
def warningColumns : List (ColumnDef Warning SqlValue) :=
  [ { name := "block_id", get := fun w => SqlValue.s w.block_id,
      map := none, cast := some "text" },
    { name := "message", get := fun w => SqlValue.s w.message,
      map := none, cast := some "text" } ]

/-- The buffers held by one `PostgresSink` instance. -/
structure PostgresSinkState where
  metadataInsert : Insert Metadata SqlValue
  headerInsert : Insert Block SqlValue
  extrinsicInsert : Insert Extrinsic SqlValue
  callInsert : Insert Call SqlValue
  eventInsert : Insert Event SqlValue
  warningInsert : Insert Warning SqlValue

/-- A freshly constructed `PostgresSink`: the six `Insert` instances with
their declared tables and column mappings. -/
def PostgresSink.make : PostgresSinkState :=
  { metadataInsert := Insert.make "metadata" metadataColumns
    headerInsert := Insert.make "block" headerColumns
    extrinsicInsert := Insert.make "extrinsic" extrinsicColumns
    callInsert := Insert.make "call" callColumns
    eventInsert := Insert.make "event" eventColumns
    warningInsert := Insert.make "warning" warningColumns }

/-- The buffer-appending phase of `PostgresSink.write` (lines 87–96):
metadata if present, then header, extrinsics, calls, events, and
warnings if present. -/
def appendBlock (s : PostgresSinkState) (block : BlockData) : PostgresSinkState :=
  let s :=
    match block.metadata with
    | some m => { s with metadataInsert := s.metadataInsert.add m }
    | none => s
  let s := { s with headerInsert := s.headerInsert.add block.header }
  let s := { s with extrinsicInsert := s.extrinsicInsert.addMany block.extrinsics }
  let s := { s with callInsert := s.callInsert.addMany block.calls }
  let s := { s with eventInsert := s.eventInsert.addMany block.events }
  match block.warnings with
  | some ws => { s with warningInsert := s.warningInsert.addMany ws }
  | none => s

/-- Sequencing of fallible query-issuing steps: stop at the first failure. -/
def andThen (r : List Query × Option String)
    (next : Unit → List Query × Option String) : List Query × Option String :=
  match r with
  | (qs, none) =>
      let r2 := next ()
      (qs ++ r2.1, r2.2)
  | (qs, some e) => (qs, some e)

/-- The transaction body of `PostgresSink.submit` (lines 106–111): the six
bulk inserts in the fixed order metadata, block, extrinsic, call, event,
warning, stopping at the first failure. -/
def runInserts (db : Db) (s : PostgresSinkState) : List Query × Option String :=
  andThen (s.metadataInsert.queryStep db) (fun _ =>
  andThen (s.headerInsert.queryStep db) (fun _ =>
  andThen (s.extrinsicInsert.queryStep db) (fun _ =>
  andThen (s.callInsert.queryStep db) (fun _ =>
  andThen (s.eventInsert.queryStep db) (fun _ =>
  s.warningInsert.queryStep db)))))

/-- `PostgresSink.tx(cb)` (lines 126–136): `BEGIN` (issued outside the
`try`, so its failure propagates without a rollback), then the body, then
`COMMIT`; on a body or commit failure a `ROLLBACK` is issued whose own
outcome is discarded (`.catch(() => {})`) and the original error is
re-raised. -/
def tx (db : Db) (body : List Query × Option String) : List Query × Option String :=
  match db Query.beginTx with
  | some e => ([Query.beginTx], some e)
  | none =>
    match body with
    | (qs, some e) =>
        let _ := db Query.rollbackTx
        (Query.beginTx :: qs ++ [Query.rollbackTx], some e)
    | (qs, none) =>
        match db Query.commitTx with
        | none => (Query.beginTx :: qs ++ [Query.commitTx], none)
        | some e =>
            let _ := db Query.rollbackTx
            (Query.beginTx :: qs ++ [Query.commitTx, Query.rollbackTx], some e)

/-- `PostgresSink.submit` (lines 102–124): run the six inserts inside a
transaction; on success clear every buffer, on failure leave every buffer
untouched and propagate the error.  Returns the issued queries, the
resulting buffers, and the propagated error, if any. -/
def submit (db : Db) (s : PostgresSinkState) :
    List Query × PostgresSinkState × Option String :=
  match tx db (runInserts db s) with
  | (qs, none) =>
      (qs,
        { metadataInsert := s.metadataInsert.clear
          headerInsert := s.headerInsert.clear
          extrinsicInsert := s.extrinsicInsert.clear
          callInsert := s.callInsert.clear
          eventInsert := s.eventInsert.clear
          warningInsert := s.warningInsert.clear },
        none)
  | (qs, some e) => (qs, s, some e)

/-- `PostgresSink.write(block)` (lines 86–100): append the block's rows,
then flush via `submit` when `block.last` holds or the header buffer's
size exceeds 20. -/
def PostgresSink.write (db : Db) (s : PostgresSinkState) (block : BlockData) :
    List Query × PostgresSinkState × Option String :=
  let s1 := appendBlock s block
  if block.last || decide (s1.headerInsert.size > 20) then submit db s1
  else ([], s1, none)

/-- A sequence of `write` calls, stopping at the first failure (the caller
awaits each call). -/
def writeSeq (db : Db) (s : PostgresSinkState) :
    List BlockData → List Query × PostgresSinkState × Option String
  | [] => ([], s, none)
  | block :: rest =>
      match PostgresSink.write db s block with
      | (qs, s1, none) =>
          let r := writeSeq db s1 rest
          (qs ++ r.1, r.2.1, r.2.2)
      | (qs, s1, some e) => (qs, s1, some e)

/-! ## The streaming writer (`sink.ts`, class `WritableSink`)

The writer is embedded as an explicit state machine.  `attached` models
whether the `error`/`drain` listeners installed by the constructor are
still registered (`close()` removes them); `drainHandle` models the at
most one stored `{resolve, reject}` pair.  The channel's backpressure
signal — the boolean returned by `writable.write('\n')` — is an input to
`write`.  The serialized payload (`toJsonString(block)` plus the line
terminator, both produced by out-of-src utilities) does not affect any
claim; only the number of channel writes performed is recorded. -/

structure WritableSinkState where
  error : Option String
  drainHandle : Bool
  attached : Bool
deriving DecidableEq

/-- A freshly constructed `WritableSink`: no cached error, no pending
drain waiter, listeners attached. -/
def WritableSink.make : WritableSinkState :=
  { error := none, drainHandle := false, attached := true }

/-- `WritableSink.close()` (lines 225–228): detach the listeners. -/
def WritableSink.close (s : WritableSinkState) : WritableSinkState :=
  { s with attached := false }

/-- How one `write` call ends. -/
inductive WriteOutcome where
  | completed : WriteOutcome
  | suspendedOnDrain : WriteOutcome
  | failed : String → WriteOutcome
  | assertionFailed : WriteOutcome
deriving DecidableEq

/-- `WritableSink.write(block)` (lines 230–243): fail immediately with the
cached error if one exists (before touching the channel); otherwise write
the serialized block and the line terminator (two channel writes) and, if
the terminator write signals saturation, suspend on `drain()` — whose
`assert(this.drainHandle == null)` fails if a waiter is already pending.
Returns the new state, the call's outcome, and the number of channel
writes performed. -/
def WritableSink.write (s : WritableSinkState) (saturated : Bool) :
    WritableSinkState × WriteOutcome × Nat :=
  match s.error with
  | some e => (s, WriteOutcome.failed e, 0)
  | none =>
    if saturated then
      if s.drainHandle then (s, WriteOutcome.assertionFailed, 2)
      else ({ s with drainHandle := true }, WriteOutcome.suspendedOnDrain, 2)
    else (s, WriteOutcome.completed, 2)

/-- The `drain` listener (lines 252–257), delivered only while attached:
resolve and discard the pending waiter, if any.  The second component is
the signal delivered to a suspended `write` (`Except.ok` = resolved). -/
def WritableSink.onDrain (s : WritableSinkState) :
    WritableSinkState × Option (Except String Unit) :=
  if s.attached then
    if s.drainHandle then ({ s with drainHandle := false }, some (Except.ok ()))
    else (s, none)
  else (s, none)

/-- The `error` listener (lines 259–266), delivered only while attached:
detach (`close()`), cache the error, and reject the pending waiter with
it, if any. -/
def WritableSink.onError (s : WritableSinkState) (err : String) :
    WritableSinkState × Option (Except String Unit) :=
  if s.attached then
    let s1 := { WritableSink.close s with error := some err }
    if s1.drainHandle then
      ({ s1 with drainHandle := false }, some (Except.error err))
    else (s1, none)
  else (s, none)

/-- Anything that can happen to a `WritableSink` instance. -/
inductive SinkOp where
  | write : Bool → SinkOp
  | drainEvent : SinkOp
  | errorEvent : String → SinkOp
  | closeOp : SinkOp
deriving DecidableEq

/-- State reached after a sequence of operations and events. -/
def runOps (s : WritableSinkState) : List SinkOp → WritableSinkState
  | [] => s
  | SinkOp.write sat :: rest => runOps (WritableSink.write s sat).1 rest
  | SinkOp.drainEvent :: rest => runOps (WritableSink.onDrain s).1 rest
  | SinkOp.errorEvent e :: rest => runOps (WritableSink.onError s e).1 rest
  | SinkOp.closeOp :: rest => runOps (WritableSink.close s) rest

/-- The channel event that eventually arrives after a `write` suspends. -/
inductive SeqEvent where
  | drained : SeqEvent
  | broke : String → SeqEvent
deriving DecidableEq

/-- One sequential `write` call: the saturation signal returned by the
channel, and the channel event that arrives next if the call suspends. -/
structure SeqCall where
  saturated : Bool
  event : SeqEvent
deriving DecidableEq

/-- One awaited `write` under the single-writer discipline: if the call
suspends on drainage, the next channel event resolves or rejects it
before the call returns. -/
def seqStep (s : WritableSinkState) (c : SeqCall) : WritableSinkState × WriteOutcome :=
  match WritableSink.write s c.saturated with
  | (s1, WriteOutcome.suspendedOnDrain, _) =>
      match c.event with
      | SeqEvent.drained => ((WritableSink.onDrain s1).1, WriteOutcome.completed)
      | SeqEvent.broke e => ((WritableSink.onError s1 e).1, WriteOutcome.failed e)
  | (s1, out, _) => (s1, out)

/-- A sequence of non-overlapping awaited `write` calls; the flag records
whether any call died on the `drain()` assertion. -/
def seqRun (s : WritableSinkState) : List SeqCall → WritableSinkState × Bool
  | [] => (s, false)
  | c :: rest =>
      match seqStep s c with
      | (s1, WriteOutcome.assertionFailed) => (s1, true)
      | (s1, _) => seqRun s1 rest

/-! ## Specification-side notions used by the theorems -/

/-- One operation on a ColumnBuffer (`Insert`). -/
inductive BufOp (E : Type) where
  | add : E → BufOp E
  | addMany : List E → BufOp E
  | clear : BufOp E

/-- Run a sequence of buffer operations. -/
def runBufOps {E V : Type} (ins : Insert E V) : List (BufOp E) → Insert E V
  | [] => ins
  | BufOp.add row :: rest => runBufOps (ins.add row) rest
  | BufOp.addMany rows :: rest => runBufOps (ins.addMany rows) rest
  | BufOp.clear :: rest => runBufOps ins.clear rest

/-- The values appended to column `k` by one `add(row)`, in declaration
order: the transformed row field of every mapping entry named `k`. -/
def pushesFor {E V : Type} (mapping : List (ColumnDef E V)) (row : E) (k : String) :
    List V :=
  mapping.filterMap (fun c => if c.name = k then some (applyTransform c row) else none)

/-- The class invariant of `Insert`: the stored columns carry exactly the
declared column names in declaration order, the declared names are
distinct (they are the keys of a TypeScript object literal), and every
column holds `size` values (row alignment). -/
def InsOk {E V : Type} (ins : Insert E V) : Prop :=
  ins.columns.map Prod.fst = ins.mapping.map ColumnDef.name ∧
  (ins.mapping.map ColumnDef.name).Nodup ∧
  ∀ p ∈ ins.columns, p.2.length = ins.size

/-- The invariant of all six buffers of a `PostgresSink`. -/
def SinkOk (s : PostgresSinkState) : Prop :=
  InsOk s.metadataInsert ∧ InsOk s.headerInsert ∧ InsOk s.extrinsicInsert ∧
  InsOk s.callInsert ∧ InsOk s.eventInsert ∧ InsOk s.warningInsert

/-- The selection stored under key `k`: a nullish binding (missing key or
stored `undefined`) is no selection at all. -/
def selAt (m : JsObj) (k : String) : Option JsVal :=
  match alookup m k with
  | none => none
  | some JsVal.undef => none
  | some v => some v

mutual

/-- Wellformedness of a JavaScript value: every object node has distinct
keys, as is forced for real JavaScript objects. -/
def wfv : JsVal → Bool
  | JsVal.tru => true
  | JsVal.fals => true
  | JsVal.undef => true
  | JsVal.obj l => decide ((l.map Prod.fst).Nodup) && wfFields l
termination_by v => sizeOf v

/-- Wellformedness of the field list of an object node. -/
def wfFields : List (String × JsVal) → Bool
  | [] => true
  | (_, v) :: rest => wfv v && wfFields rest
termination_by l => sizeOf l

end

mutual

/-- Extensional equality of JavaScript values: object nodes are compared
as maps (key for key) rather than by binding order. -/
def jsEquiv : JsVal → JsVal → Bool
  | JsVal.tru, JsVal.tru => true
  | JsVal.fals, JsVal.fals => true
  | JsVal.undef, JsVal.undef => true
  | JsVal.obj la, JsVal.obj lb =>
      fieldsEquiv la lb && lb.all (fun p => (alookup la p.1).isSome)
  | _, _ => false
termination_by a _ => sizeOf a

/-- Every binding of the first list is matched, key for key, by an
extensionally equal value in the second object. -/
def fieldsEquiv : List (String × JsVal) → JsObj → Bool
  | [], _ => true
  | (k, x) :: rest, lb =>
      (match alookup lb k with
        | some y => jsEquiv x y
        | none => false) && fieldsEquiv rest lb
termination_by l _ => sizeOf l

end

/-- The tables of the bulk-insert statements in a query list, in order. -/
def insertTables : List Query → List String
  | [] => []
  | Query.insert t _ _ :: rest => t :: insertTables rest
  | _ :: rest => insertTables rest

/-- The six buffers carry the table names declared in the constructor. -/
def TablesDeclared (s : PostgresSinkState) : Prop :=
  s.metadataInsert.table = "metadata" ∧ s.headerInsert.table = "block" ∧
  s.extrinsicInsert.table = "extrinsic" ∧ s.callInsert.table = "call" ∧
  s.eventInsert.table = "event" ∧ s.warningInsert.table = "warning"

/-- The no-flush side condition of the spec: along the sequence, after
each call's appends the header buffer holds at most 20 rows and no block
is marked `last`. -/
def noFlushSeq (s : PostgresSinkState) : List BlockData → Bool
  | [] => true
  | b :: rest =>
      let s1 := appendBlock s b
      !b.last && decide (s1.headerInsert.size ≤ 20) && noFlushSeq s1 rest

/-- The buffers after a sequence of appends with no flush in between. -/
def appendSeq (s : PostgresSinkState) (bs : List BlockData) : PostgresSinkState :=
  bs.foldl appendBlock s

/-- Pointwise comparison of the six buffer sizes. -/
def sizesLe (s t : PostgresSinkState) : Prop :=
  s.metadataInsert.size ≤ t.metadataInsert.size ∧
  s.headerInsert.size ≤ t.headerInsert.size ∧
  s.extrinsicInsert.size ≤ t.extrinsicInsert.size ∧
  s.callInsert.size ≤ t.callInsert.size ∧
  s.eventInsert.size ≤ t.eventInsert.size ∧
  s.warningInsert.size ≤ t.warningInsert.size

/-- A connection on which every query succeeds. -/
def dbOk : Db := fun _ => none

/-- A connection on which `BEGIN` fails and everything else succeeds. -/
def beginFailDb : Db := fun q =>
  match q with
  | Query.beginTx => some "begin-failed"
  | _ => none

/-- A connection on which every bulk insert fails and transaction control
succeeds. -/
def insertFailDb : Db := fun q =>
  match q with
  | Query.insert _ _ _ => some "insert-failed"
  | _ => none

/-- A connection on which `COMMIT` fails and so does `ROLLBACK`; used to
check that a rollback failure does not mask the original error. -/
def commitRollbackFailDb : Db := fun q =>
  match q with
  | Query.commitTx => some "commit-failed"
  | Query.rollbackTx => some "rollback-failed"
  | _ => none

/-- A tiny concrete block for evaluating the sink on closed inputs. -/
def sampleBlock (id : String) (lastFlag : Bool) : BlockData :=
  { header :=
      { id := id, height := 1, hash := "0xabc", parent_hash := "0xdef",
        timestamp := 1000, spec_version := 5 }
    metadata := none
    extrinsics := []
    calls := []
    events := []
    warnings := none
    last := lastFlag }

/-- A concrete block exercising every buffer of the sink. -/
def fullBlock : BlockData :=
  { header :=
      { id := "1", height := 1, hash := "0xabc", parent_hash := "0xdef",
        timestamp := 1000, spec_version := 5 }
    metadata := some { spec_version := 5, block_height := 1, block_hash := "0xabc", hex := "0x00" }
    extrinsics :=
      [ { id := "1-0", block_id := "1", name := "balances.transfer",
          index_in_block := 0, signature := none, success := true,
          hash := "0xe0", call_id := "1-0-c" } ]
    calls :=
      [ { id := "1-0-c", index := 0, block_id := "1", extrinsic_id := "1-0",
          name := "balances.transfer", parent_id := none, success := true,
          args := "\x7b\x7d" } ]
    events :=
      [ { id := "1-e0", block_id := "1", phase := "ApplyExtrinsic",
          index_in_block := 0, name := "balances.Transfer",
          extrinsic_id := some "1-0", call_id := some "1-0-c", args := "\x7b\x7d" } ]
    warnings := some [ { block_id := "1", message := "w" } ]
    last := false }

/-- A concrete metadata row for evaluating the buffers on closed inputs. -/
def sampleMeta : Metadata :=
  { spec_version := 5, block_height := 1, block_hash := "0xabc", hex := "0x00" }

/-- A concrete handler registry (handlers carried as numeric tokens). -/
def sampleRegA : DataHandlers Nat Nat Nat Nat Nat Nat :=
  { pre := [1]
    post := [2]
    events := [("Transfer", { data := some [("amount", JsVal.tru)], handlers := [10] })]
    calls := [("transfer", { data := none, handlers := [20] })]
    evmLogs := []
    contractsContractEmitted := [] }

/-- A second concrete handler registry sharing one event key with the
first. -/
def sampleRegB : DataHandlers Nat Nat Nat Nat Nat Nat :=
  { pre := [3]
    post := [4]
    events := [("Transfer", { data := none, handlers := [11] }),
               ("Deposit", { data := some [("who", JsVal.tru)], handlers := [12] })]
    calls := []
    evmLogs := []
    contractsContractEmitted := [] }

/-! ## Association-list lemmas -/

theorem alookup_setKey_self {T : Type} (m : List (String × T)) (k : String) (v : T) :
    alookup (setKey m k v) k = some v := by
  induction m with
  | nil => simp [setKey, alookup]
  | cons p rest ih =>
    obtain ⟨k0, v0⟩ := p
    by_cases hk : k0 = k
    · simp [setKey, hk, alookup]
    · simp [setKey, hk, alookup, ih]

theorem alookup_setKey_ne {T : Type} (m : List (String × T)) (k : String) (v : T)
    {k' : String} (h : k' ≠ k) :
    alookup (setKey m k v) k' = alookup m k' := by
  induction m with
  | nil => simp [setKey, alookup, Ne.symm h]
  | cons p rest ih =>
    obtain ⟨k0, v0⟩ := p
    by_cases hk : k0 = k
    · subst hk
      simp [setKey, alookup, Ne.symm h]
    · simp [setKey, hk, alookup, ih]

theorem alookup_eq_none_iff {T : Type} (m : List (String × T)) (k : String) :
    alookup m k = none ↔ k ∉ m.map Prod.fst := by
  induction m with
  | nil => simp [alookup]
  | cons p rest ih =>
    by_cases hk : p.1 = k
    · simp [alookup, hk]
    · simp [alookup, hk, ih, Ne.symm hk]

theorem alookup_isSome_iff {T : Type} (m : List (String × T)) (k : String) :
    (alookup m k).isSome ↔ k ∈ m.map Prod.fst := by
  rw [← Decidable.not_not (p := k ∈ m.map Prod.fst), ← alookup_eq_none_iff]
  cases alookup m k <;> simp

theorem alookup_sizeOf {m : List (String × JsVal)} {k : String} {v : JsVal}
    (h : alookup m k = some v) : sizeOf v < sizeOf m := by
  induction m with
  | nil => simp [alookup] at h
  | cons p rest ih =>
    obtain ⟨k0, v0⟩ := p
    by_cases hk : k0 = k
    · simp [alookup, hk] at h
      subst h
      simp
      omega
    · simp [alookup, hk] at h
      have := ih h
      simp
      omega

/-! ## Characterization of the map-merge loops -/

theorem alookup_jloop1 (b : JsObj) (l : JsObj) : ∀ (r : JsObj) (k : String),
    (l.map Prod.fst).Nodup →
    alookup (jloop1 b r l) k =
      match alookup l k with
      | none => alookup r k
      | some va => some (jitem b k va) := by
  induction l with
  | nil => intro r k _; simp [jloop1, alookup]
  | cons p rest ih =>
    intro r k hnd
    obtain ⟨k0, va0⟩ := p
    simp only [List.map_cons, List.nodup_cons] at hnd
    obtain ⟨hk0, hrest⟩ := hnd
    simp only [jloop1]
    rw [ih _ _ hrest]
    by_cases hk : k0 = k
    · subst hk
      have hnone : alookup rest k0 = none := (alookup_eq_none_iff rest k0).mpr hk0
      simp [hnone, alookup, alookup_setKey_self]
    · cases hr : alookup rest k with
      | none => simp [alookup, hk, hr, alookup_setKey_ne _ _ _ (Ne.symm hk)]
      | some va => simp [alookup, hk, hr]

theorem alookup_jloop2 (a : JsObj) (l : JsObj) : ∀ (r : JsObj) (k : String),
    (l.map Prod.fst).Nodup →
    alookup (jloop2 a r l) k =
      match alookup l k with
      | none => alookup r k
      | some vb => if isNullishAt a k then some vb else alookup r k := by
  induction l with
  | nil => intro r k _; simp [jloop2, alookup]
  | cons p rest ih =>
    intro r k hnd
    obtain ⟨k0, vb0⟩ := p
    simp only [List.map_cons, List.nodup_cons] at hnd
    obtain ⟨hk0, hrest⟩ := hnd
    simp only [jloop2]
    rw [ih _ _ hrest]
    by_cases hk : k0 = k
    · subst hk
      have hnone : alookup rest k0 = none := (alookup_eq_none_iff rest k0).mpr hk0
      cases hnl : isNullishAt a k0 with
      | true => simp [hnone, alookup, alookup_setKey_self, hnl]
      | false => simp [hnone, alookup, hnl]
    · cases hr : alookup rest k with
      | none =>
        cases hnl : isNullishAt a k0 with
        | true => simp [alookup, hk, hr, alookup_setKey_ne _ _ _ (Ne.symm hk)]
        | false => simp [alookup, hk, hr]
      | some vb =>
        cases hnl : isNullishAt a k0 with
        | true =>
          by_cases hkk : isNullishAt a k
          · simp [alookup, hk, hr, hkk]
          · simp [alookup, hk, hr, hkk, alookup_setKey_ne _ _ _ (Ne.symm hk)]
        | false =>
          by_cases hkk : isNullishAt a k <;> simp [alookup, hk, hr, hkk]

theorem alookup_jmergeMaps (a b : JsObj) (k : String)
    (ha : (a.map Prod.fst).Nodup) (hb : (b.map Prod.fst).Nodup) :
    alookup (jmergeMaps a b) k =
      match alookup a k, alookup b k with
      | none, none => none
      | some va, none => some va
      | none, some vb => some vb
      | some va, some vb =>
          if isUndef va then some vb
          else if isUndef vb then some va
          else some (merge va vb) := by
  unfold jmergeMaps
  rw [alookup_jloop2 _ _ _ _ hb, alookup_jloop1 _ _ _ _ ha]
  cases hA : alookup a k with
  | none =>
    cases hB : alookup b k with
    | none => simp [alookup]
    | some vb => simp [isNullishAt, hA, alookup]
  | some va =>
    cases hB : alookup b k with
    | none => simp [jitem, hB]
    | some vb =>
      have hnl : isNullishAt a k = isUndef va := by simp [isNullishAt, hA]
      cases hva : isUndef va with
      | true => simp [hnl, hva]
      | false =>
        cases vb with
        | undef => simp [hnl, hva, jitem, hB, isUndef]
        | tru => simp [hnl, hva, jitem, hB, isUndef]
        | fals => simp [hnl, hva, jitem, hB, isUndef]
        | obj lb' => simp [hnl, hva, jitem, hB, isUndef]

theorem alookup_mmLoop1 {T : Type} (b : List (String × T)) (f : T → T → T)
    (l : List (String × T)) : ∀ (r : List (String × T)) (k : String),
    (l.map Prod.fst).Nodup →
    alookup (mmLoop1 b f r l) k =
      match alookup l k with
      | none => alookup r k
      | some va => some (mmItem b f k va) := by
  induction l with
  | nil => intro r k _; simp [mmLoop1, alookup]
  | cons p rest ih =>
    intro r k hnd
    obtain ⟨k0, va0⟩ := p
    simp only [List.map_cons, List.nodup_cons] at hnd
    obtain ⟨hk0, hrest⟩ := hnd
    simp only [mmLoop1]
    rw [ih _ _ hrest]
    by_cases hk : k0 = k
    · subst hk
      have hnone : alookup rest k0 = none := (alookup_eq_none_iff rest k0).mpr hk0
      simp [hnone, alookup, alookup_setKey_self]
    · cases hr : alookup rest k with
      | none => simp [alookup, hk, hr, alookup_setKey_ne _ _ _ (Ne.symm hk)]
      | some va => simp [alookup, hk, hr]

theorem alookup_mmLoop2 {T : Type} (a : List (String × T))
    (l : List (String × T)) : ∀ (r : List (String × T)) (k : String),
    (l.map Prod.fst).Nodup →
    alookup (mmLoop2 a r l) k =
      match alookup l k with
      | none => alookup r k
      | some vb => if (alookup a k).isSome then alookup r k else some vb := by
  induction l with
  | nil => intro r k _; simp [mmLoop2, alookup]
  | cons p rest ih =>
    intro r k hnd
    obtain ⟨k0, vb0⟩ := p
    simp only [List.map_cons, List.nodup_cons] at hnd
    obtain ⟨hk0, hrest⟩ := hnd
    simp only [mmLoop2]
    rw [ih _ _ hrest]
    by_cases hk : k0 = k
    · subst hk
      have hnone : alookup rest k0 = none := (alookup_eq_none_iff rest k0).mpr hk0
      cases hs : (alookup a k0).isSome with
      | true => simp [hnone, alookup, hs]
      | false => simp [hnone, alookup, hs, alookup_setKey_self]
    · cases hr : alookup rest k with
      | none =>
        cases hs : (alookup a k0).isSome with
        | true => simp [alookup, hk, hr, hs]
        | false => simp [alookup, hk, hr, hs, alookup_setKey_ne _ _ _ (Ne.symm hk)]
      | some vb =>
        cases hs : (alookup a k0).isSome with
        | true => simp [alookup, hk, hr, hs]
        | false =>
          by_cases hkk : (alookup a k).isSome <;>
            simp [alookup, hk, hr, hkk, alookup_setKey_ne _ _ _ (Ne.symm hk)]

theorem alookup_mergeMaps {T : Type} (a b : List (String × T)) (f : T → T → T)
    (k : String) (ha : (a.map Prod.fst).Nodup) (hb : (b.map Prod.fst).Nodup) :
    alookup (mergeMaps a b f) k =
      match alookup a k, alookup b k with
      | none, none => none
      | some va, none => some va
      | none, some vb => some vb
      | some va, some vb => some (f va vb) := by
  unfold mergeMaps
  rw [alookup_mmLoop2 _ _ _ _ hb, alookup_mmLoop1 _ _ _ _ _ ha]
  cases hA : alookup a k with
  | none =>
    cases hB : alookup b k with
    | none => simp [alookup]
    | some vb => simp [hA, alookup]
  | some va =>
    cases hB : alookup b k with
    | none => simp [mmItem, hB]
    | some vb => simp [hA, mmItem, hB]

/-! ## Elementary facts about the field merge -/

theorem merge_tru_left (x : JsVal) : merge JsVal.tru x = JsVal.tru := by
  simp [merge]

theorem merge_tru_right (x : JsVal) : merge x JsVal.tru = JsVal.tru := by
  cases x <;> simp [merge]

theorem merge_undef_left (x : JsVal) : merge JsVal.undef x = x := by
  cases x <;> simp [merge]

theorem merge_fals_left (x : JsVal) : merge JsVal.fals x = x := by
  cases x <;> simp [merge]

theorem merge_obj (la lb : JsObj) :
    merge (JsVal.obj la) (JsVal.obj lb) = JsVal.obj (jmergeMaps la lb) := by
  simp [merge, jmergeMaps]

theorem isUndef_eq_true_iff (v : JsVal) : isUndef v = true ↔ v = JsVal.undef := by
  cases v <;> simp [isUndef]

theorem merge_not_undef {va vb : JsVal} (h1 : isUndef va = false)
    (h2 : isUndef vb = false) : isUndef (merge va vb) = false := by
  cases va <;> cases vb <;> simp_all [merge, isUndef]

/-! ## Wellformedness lemmas -/

theorem wfv_obj_nodup {l : JsObj} (h : wfv (JsVal.obj l) = true) :
    (l.map Prod.fst).Nodup := by
  simp [wfv] at h
  exact h.1

theorem wfv_obj_fields {l : JsObj} (h : wfv (JsVal.obj l) = true) :
    wfFields l = true := by
  simp [wfv] at h
  exact h.2

theorem wfFields_alookup {l : JsObj} {k : String} {v : JsVal}
    (hf : wfFields l = true) (hl : alookup l k = some v) : wfv v = true := by
  induction l with
  | nil => simp [alookup] at hl
  | cons p rest ih =>
    obtain ⟨k0, v0⟩ := p
    simp only [wfFields, Bool.and_eq_true] at hf
    by_cases hk : k0 = k
    · simp [alookup, hk] at hl
      subst hl
      exact hf.1
    · simp [alookup, hk] at hl
      exact ih hf.2 hl

/-! ## Key-set preservation for `setKey` and the merge loops -/

theorem mem_keys_setKey {T : Type} (m : List (String × T)) (k : String) (v : T)
    (k' : String) :
    k' ∈ (setKey m k v).map Prod.fst ↔ k' ∈ m.map Prod.fst ∨ k' = k := by
  induction m with
  | nil => simp [setKey]
  | cons p rest ih =>
    obtain ⟨k0, v0⟩ := p
    by_cases hk : k0 = k
    · subst hk
      simp [setKey]
      tauto
    · simp [setKey, hk, ih]
      tauto

theorem setKey_nodup {T : Type} (m : List (String × T)) (k : String) (v : T)
    (h : (m.map Prod.fst).Nodup) : ((setKey m k v).map Prod.fst).Nodup := by
  induction m with
  | nil => simp [setKey]
  | cons p rest ih =>
    obtain ⟨k0, v0⟩ := p
    by_cases hk : k0 = k
    · subst hk
      simp only [setKey, if_pos rfl]
      simpa using h
    · simp only [List.map_cons, List.nodup_cons] at h
      simp only [setKey, hk, if_false, List.map_cons, List.nodup_cons]
      refine ⟨?_, ih h.2⟩
      rw [mem_keys_setKey]
      rintro (hm | hm)
      · exact h.1 hm
      · exact hk hm

theorem jloop1_nodup (b : JsObj) (l : JsObj) : ∀ (r : JsObj),
    ((r.map Prod.fst).Nodup) → (((jloop1 b r l).map Prod.fst).Nodup) := by
  induction l with
  | nil => intro r h; simpa [jloop1] using h
  | cons p rest ih =>
    intro r h
    obtain ⟨k0, va0⟩ := p
    simp only [jloop1]
    exact ih _ (setKey_nodup _ _ _ h)

theorem jloop2_nodup (a : JsObj) (l : JsObj) : ∀ (r : JsObj),
    ((r.map Prod.fst).Nodup) → (((jloop2 a r l).map Prod.fst).Nodup) := by
  induction l with
  | nil => intro r h; simpa [jloop2] using h
  | cons p rest ih =>
    intro r h
    obtain ⟨k0, vb0⟩ := p
    simp only [jloop2]
    cases hnl : isNullishAt a k0 with
    | true => exact ih _ (by simpa [hnl] using setKey_nodup r k0 vb0 h)
    | false => exact ih _ (by simpa [hnl] using h)

theorem jmergeMaps_nodup (a b : JsObj) :
    (((jmergeMaps a b).map Prod.fst).Nodup) := by
  unfold jmergeMaps
  exact jloop2_nodup _ _ _ (jloop1_nodup _ _ _ (by simp))

/-! ## Extensional equality: introduction and reflexivity -/

theorem alookup_of_mem_nodup {T : Type} {l : List (String × T)} {k : String} {x : T}
    (hnd : (l.map Prod.fst).Nodup) (hm : (k, x) ∈ l) : alookup l k = some x := by
  induction l with
  | nil => simp at hm
  | cons p rest ih =>
    obtain ⟨k0, v0⟩ := p
    simp only [List.map_cons, List.nodup_cons] at hnd
    rcases List.mem_cons.mp hm with h | h
    · obtain ⟨h1, h2⟩ := Prod.mk.injEq .. ▸ h
      subst h1; subst h2
      simp [alookup]
    · have hk : k0 ≠ k := by
        intro he
        subst he
        exact hnd.1 (List.mem_map.mpr ⟨(k0, x), h, rfl⟩)
      simp [alookup, hk]
      exact ih hnd.2 h

theorem fieldsEquiv_of {la : List (String × JsVal)} {lb : JsObj}
    (h : ∀ k x, (k, x) ∈ la → ∃ y, alookup lb k = some y ∧ jsEquiv x y = true) :
    fieldsEquiv la lb = true := by
  induction la with
  | nil => simp [fieldsEquiv]
  | cons p rest ih =>
    obtain ⟨k0, x0⟩ := p
    obtain ⟨y, hy, he⟩ := h k0 x0 (List.mem_cons_self _ _)
    simp only [fieldsEquiv, hy, he, Bool.and_eq_true]
    exact ⟨trivial, ih (fun k x hm => h k x (List.mem_cons_of_mem _ hm))⟩

theorem jsEquiv_obj_of_pointwise {la lb : JsObj}
    (hnd : (la.map Prod.fst).Nodup)
    (h : ∀ k, (alookup la k = none ∧ alookup lb k = none) ∨
      (∃ x y, alookup la k = some x ∧ alookup lb k = some y ∧ jsEquiv x y = true)) :
    jsEquiv (JsVal.obj la) (JsVal.obj lb) = true := by
  simp only [jsEquiv, Bool.and_eq_true]
  constructor
  · apply fieldsEquiv_of
    intro k x hm
    have hx : alookup la k = some x := alookup_of_mem_nodup hnd hm
    rcases h k with ⟨h1, _⟩ | ⟨x', y, hx', hy, he⟩
    · rw [hx] at h1; cases h1
    · rw [hx] at hx'
      obtain rfl : x' = x := by injection hx'.symm
      exact ⟨y, hy, he⟩
  · rw [List.all_eq_true]
    intro p hp
    have hk : p.1 ∈ lb.map Prod.fst := List.mem_map.mpr ⟨p, hp, rfl⟩
    rcases h p.1 with ⟨_, h2⟩ | ⟨x, y, hx, _, _⟩
    · rw [alookup_eq_none_iff] at h2
      cases h2 hk
    · simp [hx]

theorem jsEquiv_refl_aux : ∀ (n : Nat) (v : JsVal), sizeOf v ≤ n →
    wfv v = true → jsEquiv v v = true := by
  intro n
  induction n with
  | zero =>
    intro v hsz _
    exfalso
    cases v <;> simp at hsz
  | succ n ih =>
    intro v hsz hwf
    cases v with
    | tru => simp [jsEquiv]
    | fals => simp [jsEquiv]
    | undef => simp [jsEquiv]
    | obj l =>
      apply jsEquiv_obj_of_pointwise (wfv_obj_nodup hwf)
      intro k
      cases hl : alookup l k with
      | none => exact Or.inl ⟨rfl, rfl⟩
      | some x =>
        refine Or.inr ⟨x, x, rfl, rfl, ih x ?_ (wfFields_alookup (wfv_obj_fields hwf) hl)⟩
        have h1 := alookup_sizeOf hl
        have h2 : sizeOf (JsVal.obj l) = 1 + sizeOf l := by simp
        omega

theorem jsEquiv_refl (v : JsVal) (hv : wfv v = true) : jsEquiv v v = true :=
  jsEquiv_refl_aux (sizeOf v) v (Nat.le_refl _) hv

/-! ## Commutativity of the field merge, as maps -/

theorem merge_comm_aux : ∀ (n : Nat) (va vb : JsVal), sizeOf va + sizeOf vb ≤ n →
    wfv va = true → wfv vb = true → isUndef va = false → isUndef vb = false →
    jsEquiv (merge va vb) (merge vb va) = true := by
  intro n
  induction n with
  | zero =>
    intro va vb hsz _ _ _ _
    exfalso
    cases va <;> simp at hsz
  | succ n ih =>
    intro va vb hsz hwa hwb hua hub
    cases va with
    | undef => simp [isUndef] at hua
    | tru => rw [merge_tru_left, merge_tru_right]; simp [jsEquiv]
    | fals =>
      cases vb with
      | undef => simp [isUndef] at hub
      | tru => rw [merge_tru_left, merge_tru_right]; simp [jsEquiv]
      | fals => simp [jsEquiv, merge]
      | obj lb =>
        rw [merge_fals_left]
        rw [show merge (JsVal.obj lb) JsVal.fals = JsVal.obj lb from by simp [merge]]
        exact jsEquiv_refl _ hwb
    | obj la =>
      cases vb with
      | undef => simp [isUndef] at hub
      | tru => rw [merge_tru_right, merge_tru_left]; simp [jsEquiv]
      | fals =>
        rw [merge_fals_left]
        rw [show merge (JsVal.obj la) JsVal.fals = JsVal.obj la from by simp [merge]]
        exact jsEquiv_refl _ hwa
      | obj lb =>
        rw [merge_obj, merge_obj]
        have hla := wfv_obj_nodup hwa
        have hlb := wfv_obj_nodup hwb
        apply jsEquiv_obj_of_pointwise (jmergeMaps_nodup la lb)
        intro k
        rw [alookup_jmergeMaps la lb k hla hlb, alookup_jmergeMaps lb la k hlb hla]
        have hsa : sizeOf (JsVal.obj la) = 1 + sizeOf la := by simp
        have hsb : sizeOf (JsVal.obj lb) = 1 + sizeOf lb := by simp
        cases hA : alookup la k with
        | none =>
          cases hB : alookup lb k with
          | none => exact Or.inl ⟨rfl, rfl⟩
          | some vb' =>
            refine Or.inr ⟨vb', vb', rfl, rfl, jsEquiv_refl _ ?_⟩
            exact wfFields_alookup (wfv_obj_fields hwb) hB
        | some va' =>
          cases hB : alookup lb k with
          | none =>
            refine Or.inr ⟨va', va', rfl, rfl, jsEquiv_refl _ ?_⟩
            exact wfFields_alookup (wfv_obj_fields hwa) hA
          | some vb' =>
            have hwa' : wfv va' = true := wfFields_alookup (wfv_obj_fields hwa) hA
            have hwb' : wfv vb' = true := wfFields_alookup (wfv_obj_fields hwb) hB
            have hsa' := alookup_sizeOf hA
            have hsb' := alookup_sizeOf hB
            cases hu1 : isUndef va' with
            | true =>
              cases hu2 : isUndef vb' with
              | true =>
                obtain rfl : va' = JsVal.undef := (isUndef_eq_true_iff va').mp hu1
                obtain rfl : vb' = JsVal.undef := (isUndef_eq_true_iff vb').mp hu2
                exact Or.inr ⟨JsVal.undef, JsVal.undef, by simp [isUndef],
                  by simp [isUndef], by simp [jsEquiv]⟩
              | false =>
                refine Or.inr ⟨vb', vb', by simp [hu1], by simp [hu1, hu2],
                  jsEquiv_refl _ hwb'⟩
            | false =>
              cases hu2 : isUndef vb' with
              | true =>
                refine Or.inr ⟨va', va', by simp [hu1, hu2], by simp [hu2],
                  jsEquiv_refl _ hwa'⟩
              | false =>
                refine Or.inr ⟨merge va' vb', merge vb' va', by simp [hu1, hu2],
                  by simp [hu1, hu2], ih va' vb' ?_ hwa' hwb' hu1 hu2⟩
                omega

/-! ## ColumnBuffer (`Insert`) lemmas -/

theorem mem_of_alookup {T : Type} {l : List (String × T)} {k : String} {v : T}
    (h : alookup l k = some v) : (k, v) ∈ l := by
  induction l with
  | nil => simp [alookup] at h
  | cons p rest ih =>
    obtain ⟨k0, v0⟩ := p
    by_cases hk : k0 = k
    · subst hk
      simp [alookup] at h
      subst h
      exact List.mem_cons_self _ _
    · simp [alookup, hk] at h
      exact List.mem_cons_of_mem _ (ih h)

theorem pushKey_keys {V : Type} (cols : List (String × List V)) (k : String) (v : V) :
    (pushKey cols k v).map Prod.fst = cols.map Prod.fst := by
  induction cols with
  | nil => rfl
  | cons p rest ih =>
    simp only [pushKey, List.map_cons] at ih ⊢
    rw [ih]

theorem alookup_pushKey {V : Type} (cols : List (String × List V)) (k : String)
    (v : V) (k' : String) :
    alookup (pushKey cols k v) k' =
      (alookup cols k').map (fun col => if k' = k then col ++ [v] else col) := by
  induction cols with
  | nil => simp [pushKey, alookup]
  | cons p rest ih =>
    obtain ⟨k0, col0⟩ := p
    by_cases h' : k0 = k'
    · subst h'
      by_cases h0 : k0 = k
      · subst h0
        simp [pushKey, alookup]
      · simp [pushKey, alookup, h0]
    · simp only [pushKey, List.map_cons, alookup, if_neg h']
      exact ih

theorem foldl_pushKey_keys {E V : Type} (row : E) (fs : List (ColumnDef E V)) :
    ∀ (cols : List (String × List V)),
    ((fs.foldl (fun cs c => pushKey cs c.name (applyTransform c row)) cols).map
      Prod.fst) = cols.map Prod.fst := by
  induction fs with
  | nil => intro cols; rfl
  | cons c rest ih =>
    intro cols
    simp only [List.foldl_cons]
    rw [ih, pushKey_keys]

theorem alookup_foldl_pushKey {E V : Type} (row : E) (fs : List (ColumnDef E V)) :
    ∀ (cols : List (String × List V)) (k : String),
    alookup (fs.foldl (fun cs c => pushKey cs c.name (applyTransform c row)) cols) k =
      (alookup cols k).map (fun col => col ++ pushesFor fs row k) := by
  induction fs with
  | nil =>
    intro cols k
    simp only [List.foldl_nil, pushesFor, List.filterMap_nil]
    cases alookup cols k <;> simp
  | cons c rest ih =>
    intro cols k
    simp only [List.foldl_cons]
    rw [ih, alookup_pushKey]
    cases hc : alookup cols k with
    | none => simp
    | some col =>
      simp only [Option.map_some']
      congr 1
      by_cases hk : k = c.name
      · subst hk
        simp [pushesFor, List.filterMap_cons, List.append_assoc]
      · have hcn : ¬(c.name = k) := fun hh => hk hh.symm
        simp [pushesFor, List.filterMap_cons, hcn, hk]

theorem pushesFor_of_not_mem {E V : Type} {mapping : List (ColumnDef E V)} (row : E)
    {k : String} (h : k ∉ mapping.map ColumnDef.name) :
    pushesFor mapping row k = [] := by
  induction mapping with
  | nil => rfl
  | cons c rest ih =>
    simp only [List.map_cons, List.mem_cons, not_or] at h
    have : ¬(c.name = k) := fun hh => h.1 hh.symm
    simp only [pushesFor, List.filterMap_cons, this, if_neg this]
    exact ih h.2

theorem pushesFor_cons {E V : Type} (c : ColumnDef E V)
    (rest : List (ColumnDef E V)) (row : E) (k : String) :
    pushesFor (c :: rest) row k =
      if c.name = k then applyTransform c row :: pushesFor rest row k
      else pushesFor rest row k := by
  by_cases hk : c.name = k <;> simp [pushesFor, List.filterMap_cons, hk]

theorem pushesFor_length {E V : Type} {mapping : List (ColumnDef E V)} (row : E)
    (hnd : (mapping.map ColumnDef.name).Nodup) (k : String) :
    (pushesFor mapping row k).length =
      if k ∈ mapping.map ColumnDef.name then 1 else 0 := by
  induction mapping with
  | nil => simp [pushesFor]
  | cons c rest ih =>
    simp only [List.map_cons, List.nodup_cons] at hnd
    rw [pushesFor_cons]
    by_cases hk : c.name = k
    · subst hk
      rw [if_pos rfl, pushesFor_of_not_mem row hnd.1]
      simp
    · rw [if_neg hk, ih hnd.2]
      by_cases hm : k ∈ List.map ColumnDef.name rest
      · simp [hm, List.mem_cons]
      · simp [hm, List.mem_cons, Ne.symm hk]

theorem pushesFor_unique {E V : Type} {mapping : List (ColumnDef E V)} (row : E)
    (hnd : (mapping.map ColumnDef.name).Nodup) {c : ColumnDef E V}
    (hc : c ∈ mapping) :
    pushesFor mapping row c.name = [applyTransform c row] := by
  induction mapping with
  | nil => simp at hc
  | cons c0 rest ih =>
    simp only [List.map_cons, List.nodup_cons] at hnd
    rcases List.mem_cons.mp hc with h | h
    · subst h
      rw [pushesFor_cons, if_pos rfl, pushesFor_of_not_mem row hnd.1]
    · have hne : c0.name ≠ c.name := by
        intro he
        exact hnd.1 (he ▸ List.mem_map.mpr ⟨c, h, rfl⟩)
      rw [pushesFor_cons, if_neg hne]
      exact ih hnd.2 h

theorem Insert.make_size {E V : Type} (table : String)
    (mapping : List (ColumnDef E V)) : (Insert.make table mapping).size = 0 := by
  cases mapping <;> rfl

theorem Insert.clear_size {E V : Type} (ins : Insert E V) : ins.clear.size = 0 := by
  unfold Insert.clear Insert.size
  cases ins.mapping <;> rfl

theorem insOk_make {E V : Type} (table : String) (mapping : List (ColumnDef E V))
    (hnd : (mapping.map ColumnDef.name).Nodup) : InsOk (Insert.make table mapping) := by
  refine ⟨?_, hnd, ?_⟩
  · show ((mapping.map fun c => (c.name, ([] : List V))).map Prod.fst) = _
    rw [List.map_map]
    rfl
  · intro p hp
    simp only [Insert.make, List.mem_map] at hp
    obtain ⟨c, _, rfl⟩ := hp
    simp [Insert.make_size]

theorem insOk_make_keys {E V : Type} (table : String)
    (mapping : List (ColumnDef E V)) :
    (Insert.make table mapping).columns.map Prod.fst =
      mapping.map ColumnDef.name := by
  show ((mapping.map fun c => (c.name, ([] : List V))).map Prod.fst) = _
  rw [List.map_map]
  rfl

theorem insOk_clear {E V : Type} (ins : Insert E V) (h : InsOk ins) :
    InsOk ins.clear := by
  refine ⟨?_, h.2.1, ?_⟩
  · simp [Insert.clear]
  · intro p hp
    simp only [Insert.clear, List.mem_map] at hp
    obtain ⟨c, _, rfl⟩ := hp
    simp [Insert.clear_size]

theorem add_columns_keys {E V : Type} (ins : Insert E V) (row : E) :
    (ins.add row).columns.map Prod.fst = ins.columns.map Prod.fst := by
  unfold Insert.add
  exact foldl_pushKey_keys row ins.mapping ins.columns

theorem alookup_add {E V : Type} (ins : Insert E V) (row : E) (k : String) :
    alookup (ins.add row).columns k =
      (alookup ins.columns k).map (fun col => col ++ pushesFor ins.mapping row k) := by
  unfold Insert.add
  exact alookup_foldl_pushKey row ins.mapping ins.columns k

theorem size_add_of_ne {E V : Type} (ins : Insert E V) (row : E) (h : InsOk ins)
    (hne : ins.mapping ≠ []) : (ins.add row).size = ins.size + 1 := by
  obtain ⟨hkeys, hnd, _⟩ := h
  cases hcols : ins.columns with
  | nil =>
    exfalso
    rw [hcols] at hkeys
    cases hm : ins.mapping with
    | nil => exact hne hm
    | cons c rest => rw [hm] at hkeys; simp at hkeys
  | cons p restc =>
    obtain ⟨k0, col0⟩ := p
    have hkadd := add_columns_keys ins row
    have hl : alookup (ins.add row).columns k0 =
        some (col0 ++ pushesFor ins.mapping row k0) := by
      rw [alookup_add, hcols]
      simp [alookup]
    have hk0mem : k0 ∈ ins.mapping.map ColumnDef.name := by
      rw [← hkeys, hcols]
      simp
    have hplen : (pushesFor ins.mapping row k0).length = 1 := by
      rw [pushesFor_length row hnd k0, if_pos hk0mem]
    cases hadd : (ins.add row).columns with
    | nil =>
      rw [hadd, hcols] at hkadd
      simp at hkadd
    | cons q restq =>
      obtain ⟨k1, col1⟩ := q
      have hk1 : k1 = k0 := by
        rw [hadd, hcols] at hkadd
        simp at hkadd
        exact hkadd.1
      rw [hk1] at hadd
      have hcol1 : col1 = col0 ++ pushesFor ins.mapping row k0 := by
        rw [hadd] at hl
        simpa [alookup] using hl
      have hsz : (ins.add row).size = col1.length := by
        rw [show Insert.size (ins.add row) =
          match (ins.add row).columns with
          | [] => 0
          | (_, col) :: _ => col.length from rfl, hadd]
      have hsz0 : ins.size = col0.length := by
        rw [show Insert.size ins =
          match ins.columns with
          | [] => 0
          | (_, col) :: _ => col.length from rfl, hcols]
      rw [hsz, hsz0, hcol1]
      simp [hplen]

theorem size_add_of_nil {E V : Type} (ins : Insert E V) (row : E) (h : InsOk ins)
    (hnil : ins.mapping = []) : (ins.add row).size = 0 ∧ ins.size = 0 := by
  obtain ⟨hkeys, _, _⟩ := h
  rw [hnil] at hkeys
  simp only [List.map_nil, List.map_eq_nil_iff] at hkeys
  have hadd : (ins.add row).columns = [] := by
    have := add_columns_keys ins row
    rw [hkeys] at this
    simpa using this
  constructor
  · simp [Insert.size, hadd]
  · simp [Insert.size, hkeys]

theorem insOk_add {E V : Type} (ins : Insert E V) (row : E) (h : InsOk ins) :
    InsOk (ins.add row) := by
  obtain ⟨hkeys, hnd, halign⟩ := h
  refine ⟨by rw [add_columns_keys]; exact hkeys, hnd, ?_⟩
  intro p hp
  have hndk : ((ins.add row).columns.map Prod.fst).Nodup := by
    rw [add_columns_keys, hkeys]; exact hnd
  have hl : alookup (ins.add row).columns p.1 = some p.2 :=
    alookup_of_mem_nodup hndk hp
  rw [alookup_add] at hl
  cases hold : alookup ins.columns p.1 with
  | none => rw [hold] at hl; simp at hl
  | some old =>
    rw [hold] at hl
    simp only [Option.map_some'] at hl
    have hp2 : p.2 = old ++ pushesFor ins.mapping row p.1 := by
      injection hl.symm
    have holdmem : (p.1, old) ∈ ins.columns := mem_of_alookup hold
    have holdlen : old.length = ins.size := halign _ holdmem
    have hmem : p.1 ∈ ins.mapping.map ColumnDef.name := by
      rw [← hkeys]
      exact List.mem_map.mpr ⟨(p.1, old), holdmem, rfl⟩
    have hplen : (pushesFor ins.mapping row p.1).length = 1 := by
      rw [pushesFor_length row hnd p.1, if_pos hmem]
    have hne : ins.mapping ≠ [] := by
      intro hm
      rw [hm] at hmem
      simp at hmem
    rw [size_add_of_ne ins row ⟨hkeys, hnd, halign⟩ hne, hp2]
    simp [holdlen, hplen]

theorem insOk_addMany {E V : Type} (rows : List E) : ∀ (ins : Insert E V),
    InsOk ins → InsOk (ins.addMany rows) := by
  induction rows with
  | nil => intro ins h; exact h
  | cons row rest ih =>
    intro ins h
    show InsOk (Insert.addMany (ins.add row) rest)
    exact ih _ (insOk_add ins row h)

theorem size_addMany_of_ne {E V : Type} (rows : List E) : ∀ (ins : Insert E V),
    InsOk ins → ins.mapping ≠ [] →
    (ins.addMany rows).size = ins.size + rows.length := by
  induction rows with
  | nil => intro ins _ _; rfl
  | cons row rest ih =>
    intro ins h hne
    show (Insert.addMany (ins.add row) rest).size = ins.size + (rest.length + 1)
    have hmap : (ins.add row).mapping = ins.mapping := rfl
    rw [ih _ (insOk_add ins row h) (by rw [hmap]; exact hne),
      size_add_of_ne ins row h hne]
    omega

theorem size_add_mono {E V : Type} (ins : Insert E V) (row : E) (h : InsOk ins) :
    ins.size ≤ (ins.add row).size := by
  cases hm : ins.mapping with
  | nil =>
    obtain ⟨h1, h2⟩ := size_add_of_nil ins row h hm
    omega
  | cons c rest =>
    rw [size_add_of_ne ins row h (by rw [hm]; exact List.cons_ne_nil c rest)]
    omega

theorem size_addMany_mono {E V : Type} (rows : List E) : ∀ (ins : Insert E V),
    InsOk ins → ins.size ≤ (ins.addMany rows).size := by
  induction rows with
  | nil => intro ins _; exact Nat.le_refl _
  | cons row rest ih =>
    intro ins h
    show ins.size ≤ (Insert.addMany (ins.add row) rest).size
    exact Nat.le_trans (size_add_mono ins row h) (ih _ (insOk_add ins row h))

/-! ## PostgresSink state lemmas -/

theorem sinkOk_make : SinkOk PostgresSink.make := by
  refine ⟨?_, ?_, ?_, ?_, ?_, ?_⟩ <;> exact insOk_make _ _ (by decide)

theorem sinkOk_appendBlock (s : PostgresSinkState) (b : BlockData) (h : SinkOk s) :
    SinkOk (appendBlock s b) := by
  obtain ⟨h1, h2, h3, h4, h5, h6⟩ := h
  unfold appendBlock
  cases b.metadata <;> cases b.warnings <;>
    exact ⟨by first | exact h1 | exact insOk_add _ _ h1,
           insOk_add _ _ h2,
           insOk_addMany _ _ h3,
           insOk_addMany _ _ h4,
           insOk_addMany _ _ h5,
           by first | exact h6 | exact insOk_addMany _ _ h6⟩

theorem sizesLe_refl (s : PostgresSinkState) : sizesLe s s :=
  ⟨Nat.le_refl _, Nat.le_refl _, Nat.le_refl _, Nat.le_refl _, Nat.le_refl _,
    Nat.le_refl _⟩

theorem sizesLe_appendBlock (s : PostgresSinkState) (b : BlockData) (h : SinkOk s) :
    sizesLe s (appendBlock s b) := by
  obtain ⟨h1, h2, h3, h4, h5, h6⟩ := h
  unfold appendBlock
  cases b.metadata <;> cases b.warnings <;>
    exact ⟨by first | exact Nat.le_refl _ | exact size_add_mono _ _ h1,
           size_add_mono _ _ h2,
           size_addMany_mono _ _ h3,
           size_addMany_mono _ _ h4,
           size_addMany_mono _ _ h5,
           by first | exact Nat.le_refl _ | exact size_addMany_mono _ _ h6⟩

theorem sinkOk_appendSeq (bs : List BlockData) : ∀ (s : PostgresSinkState),
    SinkOk s → SinkOk (appendSeq s bs) := by
  induction bs with
  | nil => intro s h; exact h
  | cons b rest ih =>
    intro s h
    exact ih _ (sinkOk_appendBlock s b h)

theorem addMany_mapping {E V : Type} (rows : List E) : ∀ (ins : Insert E V),
    (ins.addMany rows).mapping = ins.mapping := by
  induction rows with
  | nil => intro ins; rfl
  | cons row rest ih =>
    intro ins
    exact ih (ins.add row)

theorem runBufOps_mapping {E V : Type} (ops : List (BufOp E)) : ∀ (ins : Insert E V),
    (runBufOps ins ops).mapping = ins.mapping := by
  induction ops with
  | nil => intro ins; rfl
  | cons op rest ih =>
    intro ins
    cases op with
    | add row => exact ih (ins.add row)
    | addMany rows => rw [show runBufOps ins (BufOp.addMany rows :: rest) =
        runBufOps (ins.addMany rows) rest from rfl, ih, addMany_mapping]
    | clear => exact ih ins.clear

theorem insOk_runBufOps {E V : Type} (ops : List (BufOp E)) : ∀ (ins : Insert E V),
    InsOk ins → InsOk (runBufOps ins ops) := by
  induction ops with
  | nil => intro ins h; exact h
  | cons op rest ih =>
    intro ins h
    cases op with
    | add row => exact ih _ (insOk_add ins row h)
    | addMany rows => exact ih _ (insOk_addMany rows ins h)
    | clear => exact ih _ (insOk_clear ins h)

/-! ## Transaction-shape lemmas -/

theorem tx_head (db : Db) (body : List Query × Option String) :
    ((tx db body).1).head? = some Query.beginTx := by
  unfold tx
  cases db Query.beginTx with
  | some e => rfl
  | none =>
    obtain ⟨qs, er⟩ := body
    cases er with
    | none => cases db Query.commitTx <;> rfl
    | some e => rfl

theorem submit_head (db : Db) (s : PostgresSinkState) :
    ((submit db s).1).head? = some Query.beginTx := by
  have h := tx_head db (runInserts db s)
  unfold submit
  rcases htx : tx db (runInserts db s) with ⟨qs, er⟩
  rw [htx] at h
  cases er <;> simpa using h

/-! ## Claim theorems: the selection merge engine -/

/-- Claim C3, counterexample to the claim as stated: the identity law
`mergeField(X, absent) == X` fails for the value `X = false` — the code
returns the absent value instead, because `false` is falsy and the merge
tests `!fa` before `!fb`. -/
theorem claim3_counterexample :
    merge JsVal.fals JsVal.undef = JsVal.undef ∧ JsVal.undef ≠ JsVal.fals := by
  constructor
  · simp [merge]
  · intro h
    cases h

/-- Claim C3 (amended): `true` is absorbing on either side; an absent
value is a left identity for every `X` and a right identity for every `X`
other than `false` (merging `false` with absent yields absent); and on
partial-mapping (object) inputs with duplicate-free keys the merge is
commutative up to map equality (`jsEquiv` compares object nodes key for
key, ignoring binding order). -/
theorem claim3_thm :
    (∀ x, merge JsVal.tru x = JsVal.tru ∧ merge x JsVal.tru = JsVal.tru) ∧
    (∀ x, merge JsVal.undef x = x) ∧
    (∀ x, x ≠ JsVal.fals → merge x JsVal.undef = x) ∧
    merge JsVal.fals JsVal.undef = JsVal.undef ∧
    (∀ la lb, wfv (JsVal.obj la) = true → wfv (JsVal.obj lb) = true →
      jsEquiv (merge (JsVal.obj la) (JsVal.obj lb))
        (merge (JsVal.obj lb) (JsVal.obj la)) = true) := by
  refine ⟨fun x => ⟨merge_tru_left x, merge_tru_right x⟩, merge_undef_left, ?_, ?_, ?_⟩
  · intro x hx
    cases x with
    | tru => simp [merge]
    | fals => cases hx rfl
    | undef => simp [merge]
    | obj l => simp [merge]
  · simp [merge]
  · intro la lb hwa hwb
    exact merge_comm_aux (sizeOf (JsVal.obj la) + sizeOf (JsVal.obj lb)) _ _
      (Nat.le_refl _) hwa hwb (by simp [isUndef]) (by simp [isUndef])

/-- Claim C3, witness: the amended laws evaluated at concrete selection
trees. -/
theorem claim3_witness :
    merge JsVal.tru JsVal.fals = JsVal.tru ∧
    merge JsVal.undef (JsVal.obj [("amount", JsVal.tru)]) =
      JsVal.obj [("amount", JsVal.tru)] ∧
    merge (JsVal.obj [("amount", JsVal.tru)]) JsVal.undef =
      JsVal.obj [("amount", JsVal.tru)] ∧
    jsEquiv
      (merge (JsVal.obj [("amount", JsVal.tru)]) (JsVal.obj [("to", JsVal.fals)]))
      (merge (JsVal.obj [("to", JsVal.fals)]) (JsVal.obj [("amount", JsVal.tru)])) = true :=
  ⟨(claim3_thm.1 JsVal.fals).1,
   claim3_thm.2.1 (JsVal.obj [("amount", JsVal.tru)]),
   claim3_thm.2.2.1 (JsVal.obj [("amount", JsVal.tru)]) (by intro h; cases h),
   claim3_thm.2.2.2.2 [("amount", JsVal.tru)] [("to", JsVal.fals)]
     (by simp [wfv, wfFields]) (by simp [wfv, wfFields])⟩

/-- Claim C10, counterexample to the claim as stated: merging the falsy
value `false` with `X = undefined` in the order `merge(X, false)` yields
`false`, not `X`. -/
theorem claim10_counterexample :
    merge JsVal.undef JsVal.fals = JsVal.fals ∧ JsVal.fals ≠ JsVal.undef := by
  constructor
  · simp [merge]
  · intro h
    cases h

/-- Claim C10 (amended): a falsy field value (`false` or a nullish value)
never restricts the other side — as first argument it always defers
(`merge(falsy, X) = X` for every `X`); as second argument it defers for
every truthy `X`; and when both arguments are falsy the result is the
second argument, itself falsy, so still no restriction. -/
theorem claim10_thm :
    (∀ x, merge JsVal.fals x = x) ∧
    (∀ x, merge JsVal.undef x = x) ∧
    (∀ x, x ≠ JsVal.fals → x ≠ JsVal.undef →
      merge x JsVal.fals = x ∧ merge x JsVal.undef = x) ∧
    (merge JsVal.fals JsVal.undef = JsVal.undef ∧
     merge JsVal.undef JsVal.fals = JsVal.fals ∧
     merge JsVal.fals JsVal.fals = JsVal.fals ∧
     merge JsVal.undef JsVal.undef = JsVal.undef) := by
  refine ⟨merge_fals_left, merge_undef_left, ?_, by simp [merge], by simp [merge],
    by simp [merge], by simp [merge]⟩
  intro x hf hu
  cases x with
  | tru => constructor <;> simp [merge]
  | fals => cases hf rfl
  | undef => cases hu rfl
  | obj l => constructor <;> simp [merge]

/-- Claim C10, witness: the amended laws evaluated at a concrete truthy
selection tree. -/
theorem claim10_witness :
    merge JsVal.fals (JsVal.obj [("amount", JsVal.tru)]) =
      JsVal.obj [("amount", JsVal.tru)] ∧
    merge (JsVal.obj [("amount", JsVal.tru)]) JsVal.fals =
      JsVal.obj [("amount", JsVal.tru)] ∧
    merge (JsVal.obj [("amount", JsVal.tru)]) JsVal.undef =
      JsVal.obj [("amount", JsVal.tru)] :=
  ⟨claim10_thm.1 (JsVal.obj [("amount", JsVal.tru)]),
   (claim10_thm.2.2.1 (JsVal.obj [("amount", JsVal.tru)])
     (by intro h; cases h) (by intro h; cases h)).1,
   (claim10_thm.2.2.1 (JsVal.obj [("amount", JsVal.tru)])
     (by intro h; cases h) (by intro h; cases h)).2⟩

/-- Claim C4: if either top-level tree is absent the merged result is
absent; for two present trees (with duplicate-free keys, as JavaScript
objects are) the result is the key-wise field merge over the union of
their keys — a key whose selection is present on only one side passes
through unchanged, a key present on both recurses via the field merge
(`selAt` reads a key's selection, treating a stored nullish value as no
selection). -/
theorem claim4_thm :
    (∀ x, mergeContextRequests none x = none) ∧
    (∀ x, mergeContextRequests x none = none) ∧
    (∀ a b, (a.map Prod.fst).Nodup → (b.map Prod.fst).Nodup →
      mergeContextRequests (some a) (some b) = some (jmergeMaps a b) ∧
      ∀ k, selAt (jmergeMaps a b) k =
        match selAt a k, selAt b k with
        | none, none => none
        | some v, none => some v
        | none, some v => some v
        | some va, some vb => some (merge va vb)) := by
  refine ⟨fun x => by cases x <;> rfl, ?_, ?_⟩
  · intro x
    cases x <;> rfl
  · intro a b ha hb
    refine ⟨rfl, ?_⟩
    intro k
    simp only [selAt]
    rw [alookup_jmergeMaps a b k ha hb]
    cases hA : alookup a k with
    | none =>
      cases hB : alookup b k with
      | none => simp
      | some vb => cases vb <;> simp [isUndef]
    | some va =>
      cases hB : alookup b k with
      | none => cases va <;> simp [isUndef]
      | some vb =>
        cases va <;> cases vb <;> simp [isUndef, merge]

/-- Claim C4, witness: the characterization evaluated on two concrete
trees — the shared key recurses, the one-sided keys pass through. -/
theorem claim4_witness :
    mergeContextRequests none (some [("amount", JsVal.tru)]) = none ∧
    mergeContextRequests (some [("amount", JsVal.tru)]) none = none ∧
    mergeContextRequests (some [("amount", JsVal.tru), ("fee", JsVal.tru)])
        (some [("amount", JsVal.fals), ("to", JsVal.tru)]) =
      some (jmergeMaps [("amount", JsVal.tru), ("fee", JsVal.tru)]
        [("amount", JsVal.fals), ("to", JsVal.tru)]) ∧
    selAt (jmergeMaps [("amount", JsVal.tru), ("fee", JsVal.tru)]
        [("amount", JsVal.fals), ("to", JsVal.tru)]) "to" = some JsVal.tru := by
  have h := claim4_thm
  have h3 := h.2.2 [("amount", JsVal.tru), ("fee", JsVal.tru)]
    [("amount", JsVal.fals), ("to", JsVal.tru)] (by decide) (by decide)
  refine ⟨h.1 (some [("amount", JsVal.tru)]), h.2.1 (some [("amount", JsVal.tru)]),
    h3.1, ?_⟩
  rw [h3.2 "to"]
  simp [selAt, alookup, isUndef]

/-- Claim C5: per key of the `events`, `calls` and
`contractsContractEmitted` categories (with duplicate-free keys, as
JavaScript objects are), an entry defined on only one side passes through
unchanged, while a key defined on both yields the handler concatenation
(`a` first) paired with the selection-tree merge of the two `data`
fields; the `pre` and `post` sequences are concatenated `a` before `b`. -/
theorem claim5_thm {BH EH CH F LH XH : Type} (a b : DataHandlers BH EH CH F LH XH) :
    (mergeDataHandlers a b).pre = a.pre ++ b.pre ∧
    (mergeDataHandlers a b).post = a.post ++ b.post ∧
    ((a.events.map Prod.fst).Nodup → (b.events.map Prod.fst).Nodup → ∀ k,
      alookup (mergeDataHandlers a b).events k =
        match alookup a.events k, alookup b.events k with
        | none, none => none
        | some x, none => some x
        | none, some y => some y
        | some x, some y =>
            some { data := mergeContextRequests x.data y.data
                   handlers := x.handlers ++ y.handlers }) ∧
    ((a.calls.map Prod.fst).Nodup → (b.calls.map Prod.fst).Nodup → ∀ k,
      alookup (mergeDataHandlers a b).calls k =
        match alookup a.calls k, alookup b.calls k with
        | none, none => none
        | some x, none => some x
        | none, some y => some y
        | some x, some y =>
            some { data := mergeContextRequests x.data y.data
                   handlers := x.handlers ++ y.handlers }) ∧
    ((a.contractsContractEmitted.map Prod.fst).Nodup →
      (b.contractsContractEmitted.map Prod.fst).Nodup → ∀ k,
      alookup (mergeDataHandlers a b).contractsContractEmitted k =
        match alookup a.contractsContractEmitted k,
              alookup b.contractsContractEmitted k with
        | none, none => none
        | some x, none => some x
        | none, some y => some y
        | some x, some y =>
            some { data := mergeContextRequests x.data y.data
                   handlers := x.handlers ++ y.handlers }) := by
  refine ⟨rfl, rfl, ?_, ?_, ?_⟩
  · intro ha hb k
    show alookup (mergeMaps a.events b.events mergeHandlerLists) k = _
    rw [alookup_mergeMaps _ _ _ k ha hb]
    cases alookup a.events k <;> cases alookup b.events k <;> rfl
  · intro ha hb k
    show alookup (mergeMaps a.calls b.calls mergeHandlerLists) k = _
    rw [alookup_mergeMaps _ _ _ k ha hb]
    cases alookup a.calls k <;> cases alookup b.calls k <;> rfl
  · intro ha hb k
    show alookup
      (mergeMaps a.contractsContractEmitted b.contractsContractEmitted
        mergeHandlerLists) k = _
    rw [alookup_mergeMaps _ _ _ k ha hb]
    cases alookup a.contractsContractEmitted k <;>
      cases alookup b.contractsContractEmitted k <;> rfl

/-- Claim C5, witness: two concrete registries sharing the event key
`Transfer` — the merged entry concatenates the handlers `a` first, and a
`data` field absent on one side makes the merged `data` absent. -/
theorem claim5_witness :
    (mergeDataHandlers sampleRegA sampleRegB).pre = [1, 3] ∧
    (mergeDataHandlers sampleRegA sampleRegB).post = [2, 4] ∧
    alookup (mergeDataHandlers sampleRegA sampleRegB).events "Transfer" =
      some { data := none, handlers := [10, 11] } ∧
    alookup (mergeDataHandlers sampleRegA sampleRegB).events "Deposit" =
      some { data := some [("who", JsVal.tru)], handlers := [12] } ∧
    alookup (mergeDataHandlers sampleRegA sampleRegB).calls "transfer" =
      some { data := none, handlers := [20] } := by
  have h := claim5_thm sampleRegA sampleRegB
  have hev := h.2.2.1 (by decide) (by decide)
  have hca := h.2.2.2.1 (by decide) (by decide)
  refine ⟨h.1, h.2.1, ?_, ?_, ?_⟩
  · rw [hev "Transfer"]
    simp [sampleRegA, sampleRegB, alookup, mergeContextRequests]
  · rw [hev "Deposit"]
    simp [sampleRegA, sampleRegB, alookup]
  · rw [hca "transfer"]
    simp [sampleRegA, sampleRegB, alookup]

/-! ## Claim theorems: the column buffers and the batch writer -/

/-- Claim C9: for every sequence of buffer operations starting from the
freshly constructed buffer, the stored columns carry exactly the declared
names in order and every column holds `size` values (row alignment); the
fresh buffer has size `0`; `add` appends exactly one value to every
declared column, applying the column's transform when present; `add` and
`addMany` grow `size` by one per row; and `clear` resets every column to
empty while preserving the declared column set and order. -/
theorem claim9_thm {E V : Type} (table : String) (mapping : List (ColumnDef E V))
    (hnd : (mapping.map ColumnDef.name).Nodup) (ops : List (BufOp E)) :
    (runBufOps (Insert.make table mapping) ops).columns.map Prod.fst =
      mapping.map ColumnDef.name ∧
    (∀ p ∈ (runBufOps (Insert.make table mapping) ops).columns,
      p.2.length = (runBufOps (Insert.make table mapping) ops).size) ∧
    (Insert.make table mapping).size = 0 ∧
    (∀ (row : E) (c : ColumnDef E V), c ∈ mapping →
      ∃ old,
        alookup (runBufOps (Insert.make table mapping) ops).columns c.name =
          some old ∧
        alookup ((runBufOps (Insert.make table mapping) ops).add row).columns
          c.name = some (old ++ [applyTransform c row])) ∧
    (mapping ≠ [] → ∀ (row : E),
      ((runBufOps (Insert.make table mapping) ops).add row).size =
        (runBufOps (Insert.make table mapping) ops).size + 1) ∧
    (mapping ≠ [] → ∀ (rows : List E),
      ((runBufOps (Insert.make table mapping) ops).addMany rows).size =
        (runBufOps (Insert.make table mapping) ops).size + rows.length) ∧
    ((runBufOps (Insert.make table mapping) ops).clear.columns =
      mapping.map (fun c => (c.name, []))) ∧
    (runBufOps (Insert.make table mapping) ops).clear.size = 0 := by
  have hok : InsOk (runBufOps (Insert.make table mapping) ops) :=
    insOk_runBufOps ops _ (insOk_make table mapping hnd)
  have hmap : (runBufOps (Insert.make table mapping) ops).mapping = mapping :=
    runBufOps_mapping ops _
  obtain ⟨hkeys, hnd2, halign⟩ := hok
  refine ⟨by rw [hkeys, hmap], halign, Insert.make_size table mapping, ?_, ?_, ?_, ?_,
    Insert.clear_size _⟩
  · intro row c hc
    have hmem : c.name ∈ (runBufOps (Insert.make table mapping) ops).columns.map
        Prod.fst := by
      rw [hkeys, hmap]
      exact List.mem_map.mpr ⟨c, hc, rfl⟩
    rw [← alookup_isSome_iff] at hmem
    cases hold : alookup (runBufOps (Insert.make table mapping) ops).columns c.name
      with
    | none => rw [hold] at hmem; simp at hmem
    | some old =>
      refine ⟨old, rfl, ?_⟩
      rw [alookup_add, hold, hmap]
      simp [pushesFor_unique row hnd hc]
  · intro hne row
    exact size_add_of_ne _ row ⟨hkeys, hnd2, halign⟩ (by rw [hmap]; exact hne)
  · intro hne rows
    exact size_addMany_of_ne rows _ ⟨hkeys, hnd2, halign⟩ (by rw [hmap]; exact hne)
  · show (runBufOps (Insert.make table mapping) ops).mapping.map _ = _
    rw [hmap]

/-- Claim C9, witness: the laws evaluated on the metadata buffer with one
concrete row. -/
theorem claim9_witness :
    (runBufOps (Insert.make "metadata" metadataColumns)
      [BufOp.add sampleMeta]).columns.map Prod.fst =
      metadataColumns.map ColumnDef.name ∧
    (Insert.make "metadata" metadataColumns).size = 0 ∧
    ((runBufOps (Insert.make "metadata" metadataColumns)
      [BufOp.add sampleMeta]).add sampleMeta).size =
      (runBufOps (Insert.make "metadata" metadataColumns)
        [BufOp.add sampleMeta]).size + 1 ∧
    (runBufOps (Insert.make "metadata" metadataColumns)
      [BufOp.add sampleMeta]).clear.size = 0 := by
  have h := claim9_thm "metadata" metadataColumns (by decide) [BufOp.add sampleMeta]
  exact ⟨h.1, h.2.2.1, h.2.2.2.2.1 (by simp [metadataColumns]) sampleMeta, h.2.2.2.2.2.2.2⟩

/-- Claim C2: a sequence of `write` calls along which, after each call's
appends, no block is marked `last` and the header buffer holds at most 20
rows issues no query at all and just accumulates the buffers; buffer
sizes grow monotonically along the appends; a `write` whose block has
`last == true` always begins a flush (its first issued query is `BEGIN`);
and so does a `write` that brings the header buffer's size above the
fixed threshold 20. -/
theorem claim2_thm :
    (∀ db s bs, noFlushSeq s bs = true →
      writeSeq db s bs = ([], appendSeq s bs, none)) ∧
    (∀ (s : PostgresSinkState) (bs : List BlockData) (i : Nat), SinkOk s →
      sizesLe (appendSeq s (bs.take i)) (appendSeq s (bs.take (i + 1)))) ∧
    (∀ db s b, b.last = true →
      ((PostgresSink.write db s b).1).head? = some Query.beginTx) ∧
    (∀ db s b, (appendBlock s b).headerInsert.size > 20 →
      ((PostgresSink.write db s b).1).head? = some Query.beginTx) := by
  refine ⟨?_, ?_, ?_, ?_⟩
  · intro db s bs
    induction bs generalizing s with
    | nil => intro _; rfl
    | cons b rest ih =>
      intro h
      simp only [noFlushSeq, Bool.and_eq_true, Bool.not_eq_true',
        decide_eq_true_eq] at h
      obtain ⟨⟨hlast, hsize⟩, hrest⟩ := h
      have hw : PostgresSink.write db s b = ([], appendBlock s b, none) := by
        unfold PostgresSink.write
        rw [if_neg]
        simp [hlast, Nat.not_lt.mpr hsize]
      show writeSeq db s (b :: rest) = _
      simp only [writeSeq, hw, ih _ hrest]
      rfl
  · intro s bs i hok
    rw [List.take_succ]
    cases hgi : bs[i]? with
    | none =>
      simp only [Option.toList_none, List.append_nil]
      exact sizesLe_refl _
    | some b =>
      rw [show appendSeq s (bs.take i ++ (some b).toList) =
        appendBlock (appendSeq s (bs.take i)) b from by
          simp [appendSeq, List.foldl_append]]
      exact sizesLe_appendBlock _ _ (sinkOk_appendSeq _ _ hok)
  · intro db s b hlast
    unfold PostgresSink.write
    rw [if_pos (by simp [hlast])]
    exact submit_head db _
  · intro db s b hsize
    unfold PostgresSink.write
    rw [if_pos (by simp [hsize])]
    exact submit_head db _

/-- Claim C2, witness: one small no-flush write accumulates silently, and
a `last` block triggers a transaction immediately. -/
theorem claim2_witness :
    writeSeq dbOk PostgresSink.make [sampleBlock "1" false] =
      ([], appendSeq PostgresSink.make [sampleBlock "1" false], none) ∧
    ((PostgresSink.write dbOk PostgresSink.make (sampleBlock "2" true)).1).head? =
      some Query.beginTx ∧
    sizesLe (appendSeq PostgresSink.make ([sampleBlock "1" false].take 0))
      (appendSeq PostgresSink.make ([sampleBlock "1" false].take 1)) :=
  ⟨claim2_thm.1 dbOk PostgresSink.make [sampleBlock "1" false] (by decide),
   claim2_thm.2.2.1 dbOk PostgresSink.make (sampleBlock "2" true) rfl,
   claim2_thm.2.1 PostgresSink.make [sampleBlock "1" false] 0 sinkOk_make⟩

/-- Claim C1, counterexample to the claim as stated: when the initial
`BEGIN` fails, the error is re-raised and the buffers are untouched, but
no rollback is attempted — `BEGIN` is issued outside the `try`, so the
claimed rollback attempt on a `begin` failure does not happen. -/
theorem claim1_counterexample :
    (submit beginFailDb PostgresSink.make).2.2 = some "begin-failed" ∧
    Query.rollbackTx ∉ (submit beginFailDb PostgresSink.make).1 ∧
    (submit beginFailDb PostgresSink.make).1 = [Query.beginTx] := by
  refine ⟨rfl, ?_, rfl⟩
  intro hmem
  rw [show (submit beginFailDb PostgresSink.make).1 = [Query.beginTx] from rfl]
    at hmem
  simp at hmem

/-- Claim C1 (amended): if any bulk-insert statement or the commit fails,
the writer issues a rollback (whose own outcome is discarded, so a
rollback failure cannot mask anything), re-raises the original error, and
leaves every buffer exactly as it was; if the initial `BEGIN` fails, the
original error is likewise re-raised with the buffers untouched, but no
rollback is attempted. -/
theorem claim1_thm :
    (∀ db s e, db Query.beginTx = some e →
      submit db s = ([Query.beginTx], s, some e)) ∧
    (∀ db s e, db Query.beginTx = none → (runInserts db s).2 = some e →
      (submit db s).2.1 = s ∧ (submit db s).2.2 = some e ∧
        Query.rollbackTx ∈ (submit db s).1) ∧
    (∀ db s e, db Query.beginTx = none → (runInserts db s).2 = none →
      db Query.commitTx = some e →
      (submit db s).2.1 = s ∧ (submit db s).2.2 = some e ∧
        Query.rollbackTx ∈ (submit db s).1) := by
  refine ⟨?_, ?_, ?_⟩
  · intro db s e hb
    unfold submit tx
    rw [hb]
  · intro db s e hb hr
    unfold submit tx
    rw [hb]
    rcases hri : runInserts db s with ⟨qs, er⟩
    rw [hri] at hr
    simp only at hr
    subst hr
    exact ⟨rfl, rfl, by simp⟩
  · intro db s e hb hr hc
    unfold submit tx
    rw [hb]
    rcases hri : runInserts db s with ⟨qs, er⟩
    rw [hri] at hr
    simp only at hr
    subst hr
    rw [hc]
    exact ⟨rfl, rfl, by simp⟩

/-- Claim C1, witness: a commit failure on a connection whose rollback
also fails — the original commit error is re-raised (the rollback failure
is swallowed), the rollback was attempted, and the buffers are unchanged. -/
theorem claim1_witness :
    (submit commitRollbackFailDb PostgresSink.make).2.1 = PostgresSink.make ∧
    (submit commitRollbackFailDb PostgresSink.make).2.2 = some "commit-failed" ∧
    Query.rollbackTx ∈ (submit commitRollbackFailDb PostgresSink.make).1 :=
  claim1_thm.2.2 commitRollbackFailDb PostgresSink.make "commit-failed" rfl rfl rfl

/-- Claim C6: with every query succeeding, a flush issues exactly the
bulk inserts of the non-empty buffers, in the fixed order metadata,
block, extrinsic, call, event, warning, regardless of the buffered
contents; and a buffer of size 0 skips its statement entirely rather than
erroring — even on a connection that fails every insert, a flush of empty
buffers succeeds. -/
theorem claim6_thm :
    (∀ db s, (∀ q, db q = none) → TablesDeclared s →
      insertTables (submit db s).1 =
        (if s.metadataInsert.size = 0 then [] else ["metadata"]) ++
        (if s.headerInsert.size = 0 then [] else ["block"]) ++
        (if s.extrinsicInsert.size = 0 then [] else ["extrinsic"]) ++
        (if s.callInsert.size = 0 then [] else ["call"]) ++
        (if s.eventInsert.size = 0 then [] else ["event"]) ++
        (if s.warningInsert.size = 0 then [] else ["warning"])) ∧
    (∀ db s, db Query.beginTx = none → db Query.commitTx = none →
      s.metadataInsert.size = 0 → s.headerInsert.size = 0 →
      s.extrinsicInsert.size = 0 → s.callInsert.size = 0 →
      s.eventInsert.size = 0 → s.warningInsert.size = 0 →
      (submit db s).2.2 = none ∧ insertTables (submit db s).1 = []) := by
  constructor
  · intro db s hdb ht
    obtain ⟨t1, t2, t3, t4, t5, t6⟩ := ht
    by_cases h1 : s.metadataInsert.size = 0 <;>
    by_cases h2 : s.headerInsert.size = 0 <;>
    by_cases h3 : s.extrinsicInsert.size = 0 <;>
    by_cases h4 : s.callInsert.size = 0 <;>
    by_cases h5 : s.eventInsert.size = 0 <;>
    by_cases h6 : s.warningInsert.size = 0 <;>
    simp [submit, tx, runInserts, andThen, Insert.queryStep, hdb,
      h1, h2, h3, h4, h5, h6, insertTables, t1, t2, t3, t4, t5, t6]
  · intro db s hb hc h1 h2 h3 h4 h5 h6
    constructor <;>
    simp [submit, tx, runInserts, andThen, Insert.queryStep, hb, hc,
      h1, h2, h3, h4, h5, h6, insertTables]

/-- Claim C6, witness: a full block issues all six inserts in order on a
healthy connection, and an all-empty flush issues no insert and succeeds
even when every insert statement would fail. -/
theorem claim6_witness :
    insertTables (submit dbOk (appendBlock PostgresSink.make fullBlock)).1 =
      ["metadata", "block", "extrinsic", "call", "event", "warning"] ∧
    (submit insertFailDb PostgresSink.make).2.2 = none ∧
    insertTables (submit insertFailDb PostgresSink.make).1 = [] := by
  have h1 := claim6_thm.1 dbOk (appendBlock PostgresSink.make fullBlock)
    (fun q => rfl) ⟨rfl, rfl, rfl, rfl, rfl, rfl⟩
  have h2 := claim6_thm.2 insertFailDb PostgresSink.make rfl rfl rfl rfl rfl rfl
    rfl rfl
  refine ⟨?_, h2.1, h2.2⟩
  rw [h1]
  decide

/-! ## Claim theorems: the streaming writer -/

/-- Claim C7: once a channel error is observed the instance caches it
permanently — the `error` listener stores the error, detaches, and
rejects a pending drain waiter with the same error; a `write` on an
instance with a cached error fails immediately with that error and
performs no channel write at all; and no later operation or event ever
clears the cached error. -/
theorem claim7_thm :
    (∀ s e sat, s.error = some e →
      WritableSink.write s sat = (s, WriteOutcome.failed e, 0)) ∧
    (∀ s e, s.attached = true →
      (WritableSink.onError s e).1.error = some e ∧
      (WritableSink.onError s e).1.attached = false ∧
      (s.drainHandle = true →
        (WritableSink.onError s e).2 = some (Except.error e))) ∧
    (∀ s e (ops : List SinkOp), s.error = some e → s.attached = false →
      (runOps s ops).error = some e ∧ (runOps s ops).attached = false) := by
  refine ⟨?_, ?_, ?_⟩
  · intro s e sat herr
    simp [WritableSink.write, herr]
  · intro s e hatt
    cases hd : s.drainHandle <;>
      simp [WritableSink.onError, WritableSink.close, hatt, hd]
  · intro s e ops
    induction ops generalizing s with
    | nil => intro herr hatt; exact ⟨herr, hatt⟩
    | cons op rest ih =>
      intro herr hatt
      cases op with
      | write sat =>
        show (runOps (WritableSink.write s sat).1 rest).error = some e ∧
          (runOps (WritableSink.write s sat).1 rest).attached = false
        rw [show (WritableSink.write s sat).1 = s from by
          simp [WritableSink.write, herr]]
        exact ih s herr hatt
      | drainEvent =>
        show (runOps (WritableSink.onDrain s).1 rest).error = some e ∧
          (runOps (WritableSink.onDrain s).1 rest).attached = false
        rw [show (WritableSink.onDrain s).1 = s from by
          simp [WritableSink.onDrain, hatt]]
        exact ih s herr hatt
      | errorEvent e2 =>
        show (runOps (WritableSink.onError s e2).1 rest).error = some e ∧
          (runOps (WritableSink.onError s e2).1 rest).attached = false
        rw [show (WritableSink.onError s e2).1 = s from by
          simp [WritableSink.onError, hatt]]
        exact ih s herr hatt
      | closeOp =>
        show (runOps (WritableSink.close s) rest).error = some e ∧
          (runOps (WritableSink.close s) rest).attached = false
        exact ih (WritableSink.close s) herr rfl

/-- Claim C7, witness: a broken channel on an instance with a pending
waiter — the waiter is rejected with the channel error, subsequent writes
fail immediately with it and touch the channel zero times, and the error
survives any later events. -/
theorem claim7_witness :
    WritableSink.write ⟨some "broken", false, false⟩ false =
      (⟨some "broken", false, false⟩, WriteOutcome.failed "broken", 0) ∧
    (WritableSink.onError ⟨none, true, true⟩ "broken").2 =
      some (Except.error "broken") ∧
    (runOps ⟨some "broken", false, false⟩
      [SinkOp.write true, SinkOp.drainEvent, SinkOp.errorEvent "other",
        SinkOp.closeOp]).error = some "broken" :=
  ⟨claim7_thm.1 _ "broken" false rfl,
   (claim7_thm.2.1 ⟨none, true, true⟩ "broken" rfl).2.2 rfl,
   (claim7_thm.2.2 _ "broken"
     [SinkOp.write true, SinkOp.drainEvent, SinkOp.errorEvent "other",
       SinkOp.closeOp] rfl rfl).1⟩

/-- Claim C8: the writer holds at most one pending drain waiter — it is a
single slot, and a `write` that would have to wait while the slot is
already taken dies on the `drain()` assertion, an outcome distinct from
every data error; under the sequential single-writer discipline, where
each suspended `write` is resumed by the next channel event before the
next call starts, the assertion never fires. -/
theorem claim8_thm :
    (∀ s, s.error = none → s.drainHandle = true →
      WritableSink.write s true = (s, WriteOutcome.assertionFailed, 2) ∧
      ∀ e, WriteOutcome.assertionFailed ≠ WriteOutcome.failed e) ∧
    (∀ (cs : List SeqCall) (s : WritableSinkState), s.drainHandle = false →
      (s.attached = false → s.error ≠ none) → (seqRun s cs).2 = false) := by
  constructor
  · intro s herr hd
    constructor
    · simp [WritableSink.write, herr, hd]
    · intro e h
      cases h
  · intro cs
    induction cs with
    | nil => intro s _ _; rfl
    | cons c rest ih =>
      intro s hd hinv
      obtain ⟨er, dh, att⟩ := s
      simp only at hd hinv
      subst hd
      cases er with
      | some e =>
        have hstep : seqStep ⟨some e, false, att⟩ c =
            (⟨some e, false, att⟩, WriteOutcome.failed e) := by
          simp [seqStep, WritableSink.write]
        simp only [seqRun, hstep]
        exact ih ⟨some e, false, att⟩ rfl (fun _ => by simp)
      | none =>
        have hatt : att = true := by
          cases hA : att
          · exact absurd rfl (hinv hA)
          · rfl
        subst hatt
        cases hsat : c.saturated with
        | false =>
          have hstep : seqStep ⟨none, false, true⟩ c =
              (⟨none, false, true⟩, WriteOutcome.completed) := by
            simp [seqStep, WritableSink.write, hsat]
          simp only [seqRun, hstep]
          exact ih ⟨none, false, true⟩ rfl (fun hc => by simp at hc)
        | true =>
          cases hev : c.event with
          | drained =>
            have hstep : seqStep ⟨none, false, true⟩ c =
                (⟨none, false, true⟩, WriteOutcome.completed) := by
              simp [seqStep, WritableSink.write, hsat, hev, WritableSink.onDrain]
            simp only [seqRun, hstep]
            exact ih ⟨none, false, true⟩ rfl (fun hc => by simp at hc)
          | broke e2 =>
            have hstep : seqStep ⟨none, false, true⟩ c =
                (⟨some e2, false, false⟩, WriteOutcome.failed e2) := by
              simp [seqStep, WritableSink.write, hsat, hev, WritableSink.onError,
                WritableSink.close]
            simp only [seqRun, hstep]
            exact ih ⟨some e2, false, false⟩ rfl (fun _ => by simp)

/-- Claim C8, witness: a second wait while one is pending dies on the
assertion, and a concrete sequential run mixing saturation, drain and a
channel error never fires it. -/
theorem claim8_witness :
    WritableSink.write ⟨none, true, true⟩ true =
      (⟨none, true, true⟩, WriteOutcome.assertionFailed, 2) ∧
    (seqRun WritableSink.make
      [⟨true, SeqEvent.drained⟩, ⟨true, SeqEvent.broke "io-error"⟩,
        ⟨true, SeqEvent.drained⟩]).2 = false :=
  ⟨(claim8_thm.1 ⟨none, true, true⟩ rfl rfl).1,
   claim8_thm.2
     [⟨true, SeqEvent.drained⟩, ⟨true, SeqEvent.broke "io-error"⟩,
       ⟨true, SeqEvent.drained⟩]
     WritableSink.make rfl
     (fun h => by simp [WritableSink.make] at h)⟩

end Squid
